import Mathlib

/-!
Verification of the FAQ-detection matching-and-review pipeline.

This file shallowly embeds the core of the repository: the BM25 ranking
engine and tokenizer (src/services/BM25Service.ts), the message classifier
(src/services/MessageClassifier.ts, later revision), the review store
(ReviewManager), the reviewer round-robin allocator
(ReviewDistributionService), and the approve / submit-edit action handlers.
JavaScript numbers are modelled as real numbers; a NaN arising from an
out-of-bounds array read is modelled as `none` in `Option ℝ`, with
NaN-propagating addition and NaN-rejecting comparison, exactly as the
source behaves. Persistence is modelled as a list of records tagged with
their Rocket.Chat associations.
-/

namespace FaqDetection

/-- A corpus entry, `FAQ` from src/data/faqs. -/
structure FAQ where
  question : String
  answer : String
deriving DecidableEq

/-- The stop-word set of `BM25Service.tokenize`. -/
def stopwords : List String :=
  ["a", "an", "the", "and", "or", "but", "is", "are", "was", "were",
   "in", "on", "at", "to", "for", "with", "by", "about", "of", "do",
   "does", "did", "has", "have", "had", "can", "could", "will", "would",
   "should", "i", "you", "he", "she", "it", "we", "they", "this", "that"]

/-- A character matched by the JavaScript regex class `\w` (ASCII input). -/
def isWordChar (c : Char) : Bool := c.isAlphanum || c = '_'

/-- A character matched by the JavaScript regex class `\s` (ASCII input). -/
def isSpaceChar (c : Char) : Bool := c = ' ' || c = '\t' || c = '\n' || c = '\r'

/-- Splitting on whitespace runs with empty pieces dropped: the combined
effect of `.split(/\s+/)` followed by `.filter(word => word.length > 0)`.
`acc` holds the characters of the word currently being read. -/
def splitWords : List Char → List Char → List String
  | [], acc => if acc.isEmpty then [] else [String.mk acc]
  | c :: cs, acc =>
    if isSpaceChar c then
      if acc.isEmpty then splitWords cs [] else String.mk acc :: splitWords cs []
    else splitWords cs (acc ++ [c])

/-- `BM25Service.tokenize`: lowercase, replace non-word non-space characters
by spaces, split on whitespace, drop empty words and stop words. Performed
on the character list of the string. -/
def tokenize (text : String) : List String :=
  let lowerText := text.data.map Char.toLower
  let replaced := lowerText.map (fun c => if isWordChar c || isSpaceChar c then c else ' ')
  let words := splitWords replaced []
  words.filter (fun w => !(stopwords.contains w))

/-- The index state of a `BM25Service` instance after `indexFaqs`:
`documents`, the per-term frequency arrays (`terms`, a map modelled as an
association list), per-document token counts and the average length. -/
structure BM25Index where
  documents : List String
  terms : List (String × List Nat)
  docLengths : List Nat
  avgDocLength : ℚ
deriving DecidableEq

/-- `Map.set` on the association list modelling `this.terms`. -/
def setTerm : List (String × List Nat) → String → List Nat → List (String × List Nat)
  | [], t, arr => [(t, arr)]
  | (k, v) :: rest, t, arr =>
    if k = t then (t, arr) :: rest else (k, v) :: setTerm rest t arr

/-- The `while (termDocs.length < this.documents.length) termDocs.push(0)` loop. -/
def padTo (arr : List Nat) (n : Nat) : List Nat :=
  arr ++ List.replicate (n - arr.length) 0

/-- One iteration of the term-insertion loop body in `indexFaqs`: create the
array if absent (`new Array(documents.length).fill(0)`), pad it to the
current document count, and write the frequency at `docIndex`. -/
def insertTermEntry (nDocs docIndex : Nat) (terms : List (String × List Nat))
    (t : String) (freq : Nat) : List (String × List Nat) :=
  let arr := (terms.lookup t).getD (List.replicate nDocs 0)
  setTerm terms t ((padTo arr nDocs).set docIndex freq)

/-- One iteration of the corpus loop in `indexFaqs`, threading
`(documents, terms, docLengths)`. -/
def indexStep (acc : List String × List (String × List Nat) × List Nat) (faq : FAQ) :
    List String × List (String × List Nat) × List Nat :=
  let documents := acc.1 ++ [faq.question]
  let tokens := tokenize faq.question
  let docLengths := acc.2.2 ++ [tokens.length]
  let docIndex := documents.length - 1
  let terms := tokens.eraseDups.foldl
    (fun ts t => insertTermEntry documents.length docIndex ts t (tokens.count t)) acc.2.1
  (documents, terms, docLengths)

/-- `BM25Service.indexFaqs`: fold over the corpus building documents, the
term-frequency map and document lengths, then compute the average length
(`sum / count || 0`; rational division already yields 0 for an empty corpus). -/
def indexFaqs (faqs : List FAQ) : BM25Index :=
  let acc := faqs.foldl indexStep
    (([] : List String), ([] : List (String × List Nat)), ([] : List Nat))
  { documents := acc.1
    terms := acc.2.1
    docLengths := acc.2.2
    avgDocLength := (acc.2.2.sum : ℚ) / (acc.2.2.length : ℚ) }

/-- A resolved reviewer identity (`IUser`). -/
structure IUser where
  username : String
deriving DecidableEq

/-- `ReviewDistributionService.selectNextReviewer`. The persisted rotation
cursor is threaded explicitly: the result pairs the selected reviewer with
the cursor state after the call. `resolve` models
`read.getUserReader().getByUsername`. -/
def selectNextReviewer (resolve : String → Option IUser) (cursor : Option ℤ)
    (reviewerUsernames : List String) : Option IUser × Option ℤ :=
  match reviewerUsernames with
  | [] => (none, cursor)
  | [u] => (resolve u, cursor)
  | _ =>
    let availableReviewers := reviewerUsernames.filterMap resolve
    if availableReviewers.length = 0 then (none, cursor)
    else
      let lastIndex : ℤ := cursor.getD (-1)
      let lastIndex : ℤ :=
        if lastIndex < -1 ∨ (availableReviewers.length : ℤ) ≤ lastIndex then -1 else lastIndex
      let nextIndex : ℤ := (lastIndex + 1) % (availableReviewers.length : ℤ)
      (availableReviewers[nextIndex.toNat]?, some nextIndex)

/-- `k` consecutive `selectNextReviewer` calls threading the persisted cursor. -/
def selectRun (resolve : String → Option IUser) (reviewerUsernames : List String) :
    Nat → Option ℤ → List (Option IUser)
  | 0, _ => []
  | k + 1, cursor =>
    let step := selectNextReviewer resolve cursor reviewerUsernames
    step.1 :: selectRun resolve reviewerUsernames k step.2

/-- `ReviewStatus` from src/data/Review. -/
inductive ReviewStatus where
  | pending
  | approved
  | rejected
  | editing
  | expired
deriving DecidableEq

/-- `Review` from src/data/Review, fields as constructed by
`ReviewManager.createReview`; `timestamp` is milliseconds since epoch. -/
structure Review where
  reviewId : String
  messageId : String
  roomId : String
  roomType : String
  roomName : String
  senderId : String
  senderUsername : String
  originalMessage : String
  detectedQuestion : String
  proposedAnswer : String
  timestamp : ℚ
  status : ReviewStatus
deriving DecidableEq

/-- A Rocket.Chat association key, either `review:<id>` or `status:<s>`. -/
inductive Assoc where
  | review (id : String)
  | status (s : ReviewStatus)
deriving DecidableEq

/-- One persisted record together with its associations. -/
structure StoredRecord where
  value : Review
  assocs : List Assoc
deriving DecidableEq

/-- The persistence store seen by `ReviewManager`. -/
abbrev Store := List StoredRecord

/-- `persistenceRead.readByAssociation`. -/
def readByAssociation (a : Assoc) (st : Store) : List Review :=
  (st.filter (fun r => r.assocs.contains a)).map (fun r => r.value)

/-- `persistence.removeByAssociations`: drop every record carrying all of
the given associations. -/
def removeByAssociations (as : List Assoc) (st : Store) : Store :=
  st.filter (fun r => !(as.all (fun a => r.assocs.contains a)))

/-- `persistence.createWithAssociations`. -/
def createWithAssociations (v : Review) (as : List Assoc) (st : Store) : Store :=
  st ++ [{ value := v, assocs := as }]

/-- `ReviewManager.getReviewById`: first record associated to `review:<id>`. -/
def getReviewById (st : Store) (reviewId : String) : Option Review :=
  (readByAssociation (Assoc.review reviewId) st).head?

/-- `ReviewManager.updateReviewStatus`: re-read the review, overwrite the
status, remove the old record and re-create it with the new status
association. No check of the current status is performed. -/
def updateReviewStatus (st : Store) (reviewId : String) (s : ReviewStatus) :
    Option Review × Store :=
  match getReviewById st reviewId with
  | none => (none, st)
  | some review =>
    let updatedReview := { review with status := s }
    let st1 := removeByAssociations [Assoc.review reviewId] st
    let st2 := createWithAssociations updatedReview
      [Assoc.review reviewId, Assoc.status s] st1
    (some updatedReview, st2)

/-- `ReviewManager.getPendingReviews`. -/
def getPendingReviews (st : Store) : List Review :=
  readByAssociation (Assoc.status ReviewStatus.pending) st

/-- Loop body of `checkForExpiredReviews`: if the review is strictly older
than the timeout, mark it EXPIRED and bump the counter. -/
def sweepStep (now timeoutMinutes : ℚ) (acc : Nat × Store) (review : Review) : Nat × Store :=
  let diffMinutes := (now - review.timestamp) / (1000 * 60)
  if timeoutMinutes < diffMinutes then
    (acc.1 + 1, (updateReviewStatus acc.2 review.reviewId ReviewStatus.expired).2)
  else acc

/-- `ReviewManager.checkForExpiredReviews`: snapshot the pending reviews,
expire those strictly older than `timeoutMinutes`, return the count. -/
def checkForExpiredReviews (st : Store) (now timeoutMinutes : ℚ) : Nat × Store :=
  (getPendingReviews st).foldl (sweepStep now timeoutMinutes) (0, st)

/-- `ReviewManager.updateReviewAnswer`: re-read the review, overwrite the
proposed answer, remove the old record and re-create it keeping the same
status association. -/
def updateReviewAnswer (st : Store) (reviewId : String) (newAnswer : String) :
    Option Review × Store :=
  match getReviewById st reviewId with
  | none => (none, st)
  | some review =>
    let updatedReview := { review with proposedAnswer := newAnswer }
    let st1 := removeByAssociations [Assoc.review reviewId] st
    let st2 := createWithAssociations updatedReview
      [Assoc.review reviewId, Assoc.status review.status] st1
    (some updatedReview, st2)

/-- The external collaborators the action handlers consult: room and user
existence, the app user, and the configured log channel. -/
structure Env where
  roomExists : String → Bool
  userExists : String → Bool
  appUserExists : Bool
  faqLogChannel : Option String

/-- Observable world state: the review store, messages delivered to rooms
(room id and text), DM confirmations to reviewers, and log-channel writes. -/
structure World where
  store : Store
  delivered : List (String × String)
  confirmations : List (String × String)
  logMessages : List String

/-- `ApproveActionHandler.handleApproveAction` (src/prompts/prompts.ts):
look up the review (any status), set the status to APPROVED, then send the
prefixed answer to the source room and a DM confirmation to the reviewer.
The second component is the error thrown, if any. -/
def handleApproveAction (env : Env) (w : World) (reviewId username : String) :
    World × Option String :=
  match getReviewById w.store reviewId with
  | none => (w, some "Invalid review ID")
  | some review =>
    let w1 : World := { w with store := (updateReviewStatus w.store reviewId ReviewStatus.approved).2 }
    if env.roomExists review.roomId then
      let w2 : World := { w1 with delivered := w1.delivered ++
        [(review.roomId, "🤖 FAQ Bot: Here\x27s an answer to your question: " ++ review.proposedAnswer)] }
      if env.appUserExists then
        ({ w2 with confirmations := w2.confirmations ++ [(username, "approve")] }, none)
      else (w2, some "Could not get app user")
    else (w1, some "Original room not found")

/-- `EditActionHandler.processEditedResponse` (second revision): re-read the
review, deliver its current `proposedAnswer` to the source room, set the
status to APPROVED, optionally update the log channel (returning early when
the app user is missing), then confirm to the reviewer. -/
def processEditedResponse (env : Env) (w : World) (reviewId username : String) :
    World × Option String :=
  match getReviewById w.store reviewId with
  | none => (w, some "Review not found")
  | some review =>
    if env.roomExists review.roomId then
      if env.userExists review.senderId then
        let w1 : World := { w with delivered := w.delivered ++ [(review.roomId, review.proposedAnswer)] }
        let w2 : World := { w1 with store := (updateReviewStatus w1.store reviewId ReviewStatus.approved).2 }
        match env.faqLogChannel with
        | some channelName =>
          if env.appUserExists then
            let w3 : World := { w2 with logMessages := w2.logMessages ++ [channelName ++ ":" ++ reviewId] }
            ({ w3 with confirmations := w3.confirmations ++ [(username, "process_edit")] }, none)
          else (w2, none)
        | none =>
          if env.appUserExists then
            ({ w2 with confirmations := w2.confirmations ++ [(username, "process_edit")] }, none)
          else (w2, some "Could not get app user")
      else (w, some "Sender not found")
    else (w, some "Source room not found")

/-- `EditActionHandler.handleSubmitEdit` (second revision): look up the
review, replace the stored answer when `editedAnswer` is truthy (a
non-empty string), run `processEditedResponse`, then confirm. -/
def handleSubmitEdit (env : Env) (w : World) (reviewId username editedAnswer : String) :
    World × Option String :=
  match getReviewById w.store reviewId with
  | none => (w, some "Review not found")
  | some _ =>
    let w1 : World :=
      if editedAnswer ≠ "" then
        { w with store := (updateReviewAnswer w.store reviewId editedAnswer).2 }
      else w
    match processEditedResponse env w1 reviewId username with
    | (w2, some e) => (w2, some e)
    | (w2, none) =>
      if env.appUserExists then
        ({ w2 with confirmations := w2.confirmations ++ [(username, "submit_edit")] }, none)
      else (w2, some "Could not get app user")

noncomputable section

namespace BM25Service

/-- Term-frequency saturation parameter, default 1.2. -/
def k1 : ℝ := 1.2

/-- Document-length normalisation parameter, default 0.75. -/
def b : ℝ := 0.75

/-- `BM25Service.getIdf`:
`ln(1 + (N - docsWithTerm + 0.5) / (docsWithTerm + 0.5))`, 0 for an
unindexed term. -/
def getIdf (idx : BM25Index) (term : String) : ℝ :=
  match idx.terms.lookup term with
  | none => 0
  | some termDocs =>
    let docsWithTerm := (termDocs.filter (fun f => 0 < f)).length
    Real.log (1 + ((idx.documents.length : ℝ) - (docsWithTerm : ℝ) + 0.5) / ((docsWithTerm : ℝ) + 0.5))

/-- The per-token update of document `i`'s accumulated score, following the
loop body of `calculateScores`. Terms absent from the index are skipped; a
zero stored frequency is skipped (`continue`); a read past the end of the
term-frequency array is `undefined` in JavaScript and turns the
accumulated score into NaN, modelled by `none`. -/
def scoreStep (idx : BM25Index) (i : Nat) (acc : Option ℝ) (token : String) : Option ℝ :=
  match idx.terms.lookup token with
  | none => acc
  | some termFreqs =>
    match termFreqs[i]? with
    | none => none
    | some 0 => acc
    | some tf =>
      let docLength := idx.docLengths.getD i 0
      let numerator := (tf : ℝ) * (k1 + 1)
      let denominator := (tf : ℝ) + k1 * (1 - b + b * ((docLength : ℝ) / (idx.avgDocLength : ℝ)))
      match acc with
      | none => none
      | some s => some (s + getIdf idx token * (numerator / denominator))

/-- The score of document `i` accumulated over all query tokens. -/
def scoreDoc (idx : BM25Index) (queryTokens : List String) (i : Nat) : Option ℝ :=
  queryTokens.foldl (scoreStep idx i) (some 0)

/-- `BM25Service.calculateScores`: one score per indexed document. -/
def calculateScores (idx : BM25Index) (queryTokens : List String) : List (Option ℝ) :=
  (List.range idx.documents.length).map (scoreDoc idx queryTokens)

/-- The maximum-score loop of `search`, carrying `(maxScore, maxIndex)`
from `(-1, -1)`; a NaN score never wins a `>` comparison. -/
def bestGo : List (Option ℝ) → Nat → ℝ × ℤ → ℝ × ℤ
  | [], _, acc => acc
  | s :: rest, i, acc =>
    bestGo rest (i + 1)
      (match s with
       | none => acc
       | some a => if acc.1 < a then (a, (i : ℤ)) else acc)

/-- The `(maxScore, maxIndex)` pair computed by `search`. -/
def bestScore (scores : List (Option ℝ)) : ℝ × ℤ := bestGo scores 0 (-1, -1)

/-- The result record of `BM25Service.search`. -/
structure SearchResult where
  faq : Option FAQ
  score : ℝ
  isDirectMatch : Prop

/-- `BM25Service.search`: score every document, take the best, compare with
the threshold (`isDirectMatch = maxScore >= similarityThreshold`). -/
def search (idx : BM25Index) (faqs : List FAQ) (query : String)
    (similarityThreshold : ℝ) : SearchResult :=
  let best := bestScore (calculateScores idx (tokenize query))
  { faq := if 0 ≤ best.2 then faqs[best.2.toNat]? else none
    score := best.1
    isDirectMatch := similarityThreshold ≤ best.1 }

end BM25Service

/-- `MessageType` from MessageClassifier. -/
inductive MessageType where
  | alpha
  | beta
  | unrelated
deriving DecidableEq

/-- `ClassificationResult` from MessageClassifier. -/
structure ClassificationResult where
  type : MessageType
  matchedFaq : Option FAQ
  score : ℝ
  message : String

/-- The state of a `MessageClassifier` instance. -/
structure MessageClassifier where
  faqs : List FAQ
  similarityThreshold : ℝ
  bm25Service : BM25Index

/-- The `MessageClassifier` constructor (later revision): index the corpus
and clamp the threshold up to 0.99. -/
def MessageClassifier.create (faqs : List FAQ) (similarityThreshold : ℝ) :
    MessageClassifier :=
  { faqs := faqs
    similarityThreshold := if similarityThreshold < 0.99 then 0.99 else similarityThreshold
    bm25Service := indexFaqs faqs }

open Classical in
/-- `MessageClassifier.classifyMessage` (later revision): messages shorter
than 5 characters are Unrelated; a direct match with a found entry is
Alpha; everything else is Beta, whose score falls back to 0.1 when the raw
score is not positive. -/
def classifyMessage (c : MessageClassifier) (message : String) : ClassificationResult :=
  if message.length < 5 then
    { type := MessageType.unrelated, matchedFaq := none, score := 0, message := message }
  else
    let searchResult := BM25Service.search c.bm25Service c.faqs message c.similarityThreshold
    if searchResult.isDirectMatch ∧ searchResult.faq.isSome then
      { type := MessageType.alpha, matchedFaq := searchResult.faq,
        score := searchResult.score, message := message }
    else
      { type := MessageType.beta, matchedFaq := none,
        score := if 0 < searchResult.score then searchResult.score else 0.1,
        message := message }

end

/-- Store well-formedness: every record carries exactly its review-id and
status associations, and review ids are unique. Both invariants hold for
every store reachable through `ReviewManager`. -/
def WFStore (st : Store) : Prop :=
  (∀ r ∈ st, r.assocs = [Assoc.review r.value.reviewId, Assoc.status r.value.status]) ∧
  (st.map (fun r => r.value.reviewId)).Nodup

/-- A fixed pending review used by concrete witnesses. -/
def exReview : Review :=
  { reviewId := "r1", messageId := "m1", roomId := "room1", roomType := "c",
    roomName := "general", senderId := "u1", senderUsername := "sam",
    originalMessage := "how to reset password",
    detectedQuestion := "How do I reset my password", proposedAnswer := "Use the reset link.",
    timestamp := 0, status := ReviewStatus.pending }

/-- A store holding just `exReview`. -/
def exStore : Store :=
  [{ value := exReview, assocs := [Assoc.review "r1", Assoc.status ReviewStatus.pending] }]

/-- An environment where every room and user resolves. -/
def exEnv : Env :=
  { roomExists := fun _ => true, userExists := fun _ => true,
    appUserExists := true, faqLogChannel := none }

/-- A world holding just `exReview`, with nothing delivered yet. -/
def exWorld : World :=
  { store := exStore, delivered := [], confirmations := [], logMessages := [] }

/-- `exReview` moved to the EDITING state with a known old answer. -/
def exReviewEditing : Review :=
  { exReview with status := ReviewStatus.editing, proposedAnswer := "old answer" }

/-- A store holding just `exReviewEditing`. -/
def exStoreEditing : Store :=
  [{ value := exReviewEditing, assocs := [Assoc.review "r1", Assoc.status ReviewStatus.editing] }]

/-- A world holding just `exReviewEditing`. -/
def exWorldEditing : World :=
  { store := exStoreEditing, delivered := [], confirmations := [], logMessages := [] }

/-- The single-entry corpus of the direct-match scenario. -/
def channelFaq : FAQ :=
  { question := "How do I create a channel?", answer := "Use the create-channel button." }

/-- A two-entry corpus whose questions share no terms. -/
def helloFaq : FAQ := { question := "hello", answer := "first" }

/-- Second entry of the two-entry corpus. -/
def worldFaq : FAQ := { question := "world", answer := "second" }

theorem filter_after_remove (st : Store) (p : StoredRecord → Bool) :
    (st.filter (fun r => !(p r))).filter p = [] := by
  rw [List.filter_filter]
  apply List.filter_eq_nil_iff.mpr
  intro a _
  cases p a <;> simp

theorem readByAssociation_create (a : Assoc) (v : Review) (as : List Assoc) (st : Store) :
    readByAssociation a (createWithAssociations v as st) =
      readByAssociation a st ++ (if a ∈ as then [v] else []) := by
  unfold readByAssociation createWithAssociations
  rw [List.filter_append, List.map_append]
  by_cases h : a ∈ as <;> simp [h]

theorem getReviewById_update_self (st : Store) (id : String) (s : ReviewStatus)
    (r : Review) (h : getReviewById st id = some r) :
    (updateReviewStatus st id s).1 = some { r with status := s } ∧
      getReviewById (updateReviewStatus st id s).2 id = some { r with status := s } := by
  unfold updateReviewStatus
  rw [h]
  refine ⟨rfl, ?_⟩
  show (readByAssociation _ _).head? = _
  rw [readByAssociation_create]
  have hnil : readByAssociation (Assoc.review id) (removeByAssociations [Assoc.review id] st) = [] := by
    unfold readByAssociation removeByAssociations
    rw [show (fun r : StoredRecord => !([Assoc.review id].all (fun a => r.assocs.contains a))) =
      (fun r : StoredRecord => !(r.assocs.contains (Assoc.review id))) from by funext r; simp]
    rw [filter_after_remove]
    rfl
  rw [hnil]
  simp

theorem getReviewByAnswer_update_self (st : Store) (id : String) (ans : String)
    (r : Review) (h : getReviewById st id = some r) :
    (updateReviewAnswer st id ans).1 = some { r with proposedAnswer := ans } ∧
      getReviewById (updateReviewAnswer st id ans).2 id = some { r with proposedAnswer := ans } := by
  unfold updateReviewAnswer
  rw [h]
  refine ⟨rfl, ?_⟩
  show (readByAssociation _ _).head? = _
  rw [readByAssociation_create]
  have hnil : readByAssociation (Assoc.review id) (removeByAssociations [Assoc.review id] st) = [] := by
    unfold readByAssociation removeByAssociations
    rw [show (fun r : StoredRecord => !([Assoc.review id].all (fun a => r.assocs.contains a))) =
      (fun r : StoredRecord => !(r.assocs.contains (Assoc.review id))) from by funext r; simp]
    rw [filter_after_remove]
    rfl
  rw [hnil]
  simp

theorem reviewId_of_getReviewById (st : Store) (id : String) (r : Review)
    (hwf1 : ∀ x ∈ st, x.assocs = [Assoc.review x.value.reviewId, Assoc.status x.value.status])
    (h : getReviewById st id = some r) : r.reviewId = id := by
  unfold getReviewById readByAssociation at h
  rw [List.head?_map] at h
  cases hh : (st.filter (fun x => x.assocs.contains (Assoc.review id))).head? with
  | none => rw [hh] at h; simp at h
  | some rec =>
    rw [hh] at h
    have hv : rec.value = r := by simpa using h
    have hmem : rec ∈ st.filter (fun x => x.assocs.contains (Assoc.review id)) :=
      List.mem_of_mem_head? (by rw [hh]; rfl)
    have hfil := List.of_mem_filter hmem
    have hin : rec ∈ st := List.mem_of_mem_filter hmem
    rw [hwf1 rec hin] at hfil
    simp only [List.contains_cons] at hfil
    have : Assoc.review id = Assoc.review rec.value.reviewId ∨
        Assoc.review id = Assoc.status rec.value.status := by
      rcases Bool.or_eq_true_iff.mp hfil with h1 | h1
      · exact Or.inl (beq_iff_eq.mp (by simpa using h1))
      · simp only [List.contains_cons, List.contains_nil, Bool.or_false] at h1
        exact Or.inr (beq_iff_eq.mp h1)
    rcases this with h1 | h1
    · injection h1 with h2
      rw [← hv, ← h2]
    · exact Assoc.noConfusion h1

theorem readByAssociation_remove_other (st : Store) (id id' : String)
    (hwf1 : ∀ x ∈ st, x.assocs = [Assoc.review x.value.reviewId, Assoc.status x.value.status])
    (hne : id' ≠ id) :
    readByAssociation (Assoc.review id') (removeByAssociations [Assoc.review id] st) =
      readByAssociation (Assoc.review id') st := by
  unfold readByAssociation removeByAssociations
  rw [List.filter_filter]
  congr 1
  apply List.filter_congr
  intro x hx
  rw [hwf1 x hx]
  by_cases hcase : x.value.reviewId = id'
  · simp only [hcase]
    simp
    exact fun hh => hne hh.symm
  · simp
    intro h1
    exact absurd h1.symm hcase

theorem getReviewById_update_other (st : Store) (id id' : String) (s : ReviewStatus)
    (hwf1 : ∀ x ∈ st, x.assocs = [Assoc.review x.value.reviewId, Assoc.status x.value.status])
    (hne : id' ≠ id) :
    getReviewById (updateReviewStatus st id s).2 id' = getReviewById st id' := by
  unfold updateReviewStatus
  cases h : getReviewById st id with
  | none => rfl
  | some r =>
    show (readByAssociation _ _).head? = _
    rw [readByAssociation_create, if_neg (by simp [hne]),
      readByAssociation_remove_other st id id' hwf1 hne]
    simp [getReviewById]

theorem getReviewAnswer_update_other (st : Store) (id id' : String) (ans : String)
    (hwf1 : ∀ x ∈ st, x.assocs = [Assoc.review x.value.reviewId, Assoc.status x.value.status])
    (hne : id' ≠ id) :
    getReviewById (updateReviewAnswer st id ans).2 id' = getReviewById st id' := by
  unfold updateReviewAnswer
  cases h : getReviewById st id with
  | none => rfl
  | some r =>
    show (readByAssociation _ _).head? = _
    rw [readByAssociation_create, if_neg (by simp [hne]),
      readByAssociation_remove_other st id id' hwf1 hne]
    simp [getReviewById]

theorem notMem_removed_ids (st : Store) (id : String)
    (hwf1 : ∀ x ∈ st, x.assocs = [Assoc.review x.value.reviewId, Assoc.status x.value.status]) :
    id ∉ (removeByAssociations [Assoc.review id] st).map (fun x => x.value.reviewId) := by
  intro hmem
  rcases List.mem_map.mp hmem with ⟨x, hx, hid⟩
  have hin : x ∈ st := List.mem_of_mem_filter hx
  have hcond := List.of_mem_filter hx
  rw [hwf1 x hin] at hcond
  subst hid
  simp at hcond

theorem nodup_removed_ids (st : Store)
    (hnd : (st.map (fun x => x.value.reviewId)).Nodup) (as : List Assoc) :
    ((removeByAssociations as st).map (fun x => x.value.reviewId)).Nodup :=
  hnd.sublist (List.Sublist.map _ (List.filter_sublist st))

theorem WFStore_updateReviewStatus (st : Store) (id : String) (s : ReviewStatus)
    (hwf : WFStore st) : WFStore (updateReviewStatus st id s).2 := by
  obtain ⟨hwf1, hwf2⟩ := hwf
  cases h : getReviewById st id with
  | none => unfold updateReviewStatus; rw [h]; exact ⟨hwf1, hwf2⟩
  | some r =>
    have hid := reviewId_of_getReviewById st id r hwf1 h
    unfold updateReviewStatus
    rw [h]
    dsimp only
    unfold createWithAssociations
    constructor
    · intro x hx
      rcases List.mem_append.mp hx with hx | hx
      · exact hwf1 x (List.mem_of_mem_filter hx)
      · simp only [List.mem_singleton] at hx
        subst hx
        simp [hid]
    · rw [List.map_append]
      apply List.Nodup.append
      · exact nodup_removed_ids st hwf2 _
      · simp
      · intro a ha hb
        simp only [List.map_cons, List.map_nil, List.mem_singleton] at hb
        subst hb
        exact notMem_removed_ids st id hwf1 (by simpa [hid] using ha)

theorem WFStore_updateReviewAnswer (st : Store) (id : String) (ans : String)
    (hwf : WFStore st) : WFStore (updateReviewAnswer st id ans).2 := by
  obtain ⟨hwf1, hwf2⟩ := hwf
  cases h : getReviewById st id with
  | none => unfold updateReviewAnswer; rw [h]; exact ⟨hwf1, hwf2⟩
  | some r =>
    have hid := reviewId_of_getReviewById st id r hwf1 h
    unfold updateReviewAnswer
    rw [h]
    dsimp only
    unfold createWithAssociations
    constructor
    · intro x hx
      rcases List.mem_append.mp hx with hx | hx
      · exact hwf1 x (List.mem_of_mem_filter hx)
      · simp only [List.mem_singleton] at hx
        subst hx
        simp [hid]
    · rw [List.map_append]
      apply List.Nodup.append
      · exact nodup_removed_ids st hwf2 _
      · simp
      · intro a ha hb
        simp only [List.map_cons, List.map_nil, List.mem_singleton] at hb
        subst hb
        exact notMem_removed_ids st id hwf1 (by simpa [hid] using ha)

theorem rec_of_getReviewById (st : Store) (id : String) (r : Review)
    (h : getReviewById st id = some r) :
    ∃ x, x ∈ st ∧ x.value = r ∧ x.assocs.contains (Assoc.review id) = true := by
  unfold getReviewById readByAssociation at h
  rw [List.head?_map] at h
  cases hh : (st.filter (fun x => x.assocs.contains (Assoc.review id))).head? with
  | none => rw [hh] at h; simp at h
  | some rec =>
    rw [hh] at h
    have hmem : rec ∈ st.filter (fun x => x.assocs.contains (Assoc.review id)) :=
      List.mem_of_mem_head? (by rw [hh]; rfl)
    exact ⟨rec, List.mem_of_mem_filter hmem, by simpa using h,
      by have hh2 := List.of_mem_filter hmem; simpa using hh2⟩

theorem getReviewById_of_mem (st : Store) (rec : StoredRecord)
    (hwf : WFStore st) (hm : rec ∈ st) :
    getReviewById st rec.value.reviewId = some rec.value := by
  induction st with
  | nil => cases hm
  | cons y rest ih =>
    obtain ⟨hwf1, hwf2⟩ := hwf
    have hwfr : WFStore rest :=
      ⟨fun x hx => hwf1 x (List.mem_cons_of_mem _ hx), (List.nodup_cons.mp hwf2).2⟩
    show ((List.filter _ (y :: rest)).map _).head? = _
    rcases List.mem_cons.mp hm with hy | hy
    · subst hy
      rw [List.filter_cons_of_pos]
      · simp
      · rw [hwf1 rec (List.mem_cons_self rec rest)]
        simp
    · have hne : y.value.reviewId ≠ rec.value.reviewId := by
        intro he
        apply (List.nodup_cons.mp hwf2).1
        show y.value.reviewId ∈ List.map (fun r => r.value.reviewId) rest
        rw [he]
        exact List.mem_map_of_mem _ hy
      rw [List.filter_cons_of_neg]
      · exact ih hwfr hy
      · rw [hwf1 y (List.mem_cons_self y rest)]
        simp
        exact fun hc => hne hc.symm

theorem status_of_mem_pending (st : Store) (r : Review)
    (hwf1 : ∀ x ∈ st, x.assocs = [Assoc.review x.value.reviewId, Assoc.status x.value.status])
    (hr : r ∈ getPendingReviews st) : r.status = ReviewStatus.pending := by
  unfold getPendingReviews readByAssociation at hr
  rcases List.mem_map.mp hr with ⟨rec, hrec, hval⟩
  have hin := List.mem_of_mem_filter hrec
  have hcond := List.of_mem_filter hrec
  rw [hwf1 rec hin] at hcond
  subst hval
  simp at hcond
  exact hcond.symm

theorem pending_get (st : Store) (r : Review) (hwf : WFStore st)
    (hr : r ∈ getPendingReviews st) : getReviewById st r.reviewId = some r := by
  unfold getPendingReviews readByAssociation at hr
  rcases List.mem_map.mp hr with ⟨rec, hrec, hval⟩
  have hin := List.mem_of_mem_filter hrec
  subst hval
  exact getReviewById_of_mem st rec hwf hin

theorem mem_pending_of_get (st : Store) (id : String) (r : Review)
    (hwf1 : ∀ x ∈ st, x.assocs = [Assoc.review x.value.reviewId, Assoc.status x.value.status])
    (h : getReviewById st id = some r) (hs : r.status = ReviewStatus.pending) :
    r ∈ getPendingReviews st := by
  rcases rec_of_getReviewById st id r h with ⟨x, hx, hval, _⟩
  unfold getPendingReviews readByAssociation
  refine List.mem_map.mpr ⟨x, List.mem_filter.mpr ⟨hx, ?_⟩, hval⟩
  rw [hwf1 x hx, hval, hs]
  simp

theorem pending_ids_nodup (st : Store)
    (hwf2 : (st.map (fun x => x.value.reviewId)).Nodup) :
    ((getPendingReviews st).map (fun r => r.reviewId)).Nodup := by
  unfold getPendingReviews readByAssociation
  rw [List.map_map]
  exact hwf2.sublist (List.Sublist.map _ (List.filter_sublist st))

theorem sweep_foldl_spec (now timeout : ℚ) (pend : List Review) :
    ∀ (c : Nat) (st : Store), WFStore st →
      (∀ r ∈ pend, getReviewById st r.reviewId = some r) →
      ((pend.map (fun r => r.reviewId)).Nodup) →
      WFStore (pend.foldl (sweepStep now timeout) (c, st)).2 ∧
      (pend.foldl (sweepStep now timeout) (c, st)).1 =
        c + (pend.filter (fun r => decide (timeout < (now - r.timestamp) / (1000 * 60)))).length ∧
      (∀ r ∈ pend, getReviewById (pend.foldl (sweepStep now timeout) (c, st)).2 r.reviewId =
        some (if timeout < (now - r.timestamp) / (1000 * 60)
          then { r with status := ReviewStatus.expired } else r)) ∧
      (∀ id, id ∉ pend.map (fun r => r.reviewId) →
        getReviewById (pend.foldl (sweepStep now timeout) (c, st)).2 id = getReviewById st id) := by
  induction pend with
  | nil =>
    intro c st hwf _ _
    exact ⟨hwf, by simp, by simp, fun id _ => rfl⟩
  | cons r rest ih =>
    intro c st hwf hget hnd
    have hr : getReviewById st r.reviewId = some r := hget r (List.mem_cons_self r rest)
    obtain ⟨hnotin, hnd'⟩ := List.nodup_cons.mp hnd
    have hneq : ∀ r' ∈ rest, r'.reviewId ≠ r.reviewId := by
      intro r' hr' he
      apply hnotin
      show r.reviewId ∈ List.map (fun x => x.reviewId) rest
      rw [← he]
      exact List.mem_map_of_mem _ hr'
    by_cases hc : timeout < (now - r.timestamp) / (1000 * 60)
    · have hstep : sweepStep now timeout (c, st) r =
        (c + 1, (updateReviewStatus st r.reviewId ReviewStatus.expired).2) := by
        unfold sweepStep
        rw [if_pos hc]
      set st' := (updateReviewStatus st r.reviewId ReviewStatus.expired).2 with hst'
      have hwf' : WFStore st' := WFStore_updateReviewStatus st r.reviewId _ hwf
      have hothers : ∀ r' ∈ rest, getReviewById st' r'.reviewId = some r' := by
        intro r' hr'
        rw [hst', getReviewById_update_other st r.reviewId r'.reviewId _ hwf.1 (hneq r' hr')]
        exact hget r' (List.mem_cons_of_mem _ hr')
      have IH := ih (c + 1) st' hwf' hothers hnd'
      have hfold : (r :: rest).foldl (sweepStep now timeout) (c, st) =
          rest.foldl (sweepStep now timeout) (c + 1, st') := by
        rw [List.foldl_cons, hstep]
      refine ⟨by rw [hfold]; exact IH.1, ?_, ?_, ?_⟩
      · rw [hfold, IH.2.1]
        simp [List.filter_cons, hc]
        omega
      · intro r' hr'
        rcases List.mem_cons.mp hr' with he | he
        · subst he
          rw [hfold, IH.2.2.2 r'.reviewId (fun hmem => hnotin hmem), if_pos hc]
          exact (getReviewById_update_self st r'.reviewId _ r' hr).2
        · rw [hfold]
          exact IH.2.2.1 r' he
      · intro id hid
        have hid1 : id ≠ r.reviewId := by
          intro he
          exact hid (by rw [he]; exact List.mem_cons_self _ _)
        have hid2 : id ∉ rest.map (fun x => x.reviewId) := by
          intro he
          exact hid (List.mem_cons_of_mem _ he)
        rw [hfold, IH.2.2.2 id hid2, hst',
          getReviewById_update_other st r.reviewId id _ hwf.1 hid1]
    · have hstep : sweepStep now timeout (c, st) r = (c, st) := by
        unfold sweepStep
        rw [if_neg hc]
      have hfold : (r :: rest).foldl (sweepStep now timeout) (c, st) =
          rest.foldl (sweepStep now timeout) (c, st) := by
        rw [List.foldl_cons, hstep]
      have IH := ih c st hwf (fun r' hr' => hget r' (List.mem_cons_of_mem _ hr')) hnd'
      refine ⟨by rw [hfold]; exact IH.1, ?_, ?_, ?_⟩
      · rw [hfold, IH.2.1]
        simp [List.filter_cons, hc]
      · intro r' hr'
        rcases List.mem_cons.mp hr' with he | he
        · subst he
          rw [hfold, IH.2.2.2 r'.reviewId (fun hmem => hnotin hmem), if_neg hc]
          exact hr
        · rw [hfold]
          exact IH.2.2.1 r' he
      · intro id hid
        have hid2 : id ∉ rest.map (fun x => x.reviewId) := by
          intro he
          exact hid (List.mem_cons_of_mem _ he)
        rw [hfold]
        exact IH.2.2.2 id hid2

/-- C7: on a well-formed store the expiry sweep returns the number of
pending reviews strictly older than the timeout; every retrievable review
that is PENDING and strictly older than the timeout is transitioned to
EXPIRED, every other review is left exactly as it was, and unknown ids stay
unknown. The sweep only touches the persistence store (`ReviewManager` has
no messaging access), so nothing is delivered. -/
theorem spec_C7 (st : Store) (now timeoutMinutes : ℚ) (hwf : WFStore st) :
    (checkForExpiredReviews st now timeoutMinutes).1 =
      ((getPendingReviews st).filter
        (fun r => decide (timeoutMinutes < (now - r.timestamp) / (1000 * 60)))).length ∧
    (∀ id r, getReviewById st id = some r →
      getReviewById (checkForExpiredReviews st now timeoutMinutes).2 id =
        some (if r.status = ReviewStatus.pending ∧
            timeoutMinutes < (now - r.timestamp) / (1000 * 60)
          then { r with status := ReviewStatus.expired } else r)) ∧
    (∀ id, getReviewById st id = none →
      getReviewById (checkForExpiredReviews st now timeoutMinutes).2 id = none) := by
  have hget : ∀ r ∈ getPendingReviews st, getReviewById st r.reviewId = some r :=
    fun r hr => pending_get st r hwf hr
  have hnd := pending_ids_nodup st hwf.2
  have H := sweep_foldl_spec now timeoutMinutes (getPendingReviews st) 0 st hwf hget hnd
  have hCk : checkForExpiredReviews st now timeoutMinutes =
      (getPendingReviews st).foldl (sweepStep now timeoutMinutes) (0, st) := rfl
  refine ⟨?_, ?_, ?_⟩
  · rw [hCk, H.2.1]
    simp
  · intro id r h
    by_cases hp : r.status = ReviewStatus.pending
    · have hmem : r ∈ getPendingReviews st := mem_pending_of_get st id r hwf.1 h hp
      have hid : r.reviewId = id := reviewId_of_getReviewById st id r hwf.1 h
      rw [hCk, ← hid, H.2.2.1 r hmem]
      by_cases hcond : timeoutMinutes < (now - r.timestamp) / (1000 * 60)
      · rw [if_pos hcond, if_pos ⟨hp, hcond⟩]
      · rw [if_neg hcond, if_neg (fun hh => hcond hh.2)]
    · have hnotmem : id ∉ (getPendingReviews st).map (fun r => r.reviewId) := by
        intro hmem
        rcases List.mem_map.mp hmem with ⟨r', hr', hid'⟩
        have h2 := pending_get st r' hwf hr'
        rw [hid', h] at h2
        injection h2 with h3
        exact hp (h3 ▸ status_of_mem_pending st r' hwf.1 hr')
      rw [hCk, H.2.2.2 id hnotmem, h, if_neg (fun hh => hp hh.1)]
  · intro id h
    have hnotmem : id ∉ (getPendingReviews st).map (fun r => r.reviewId) := by
      intro hmem
      rcases List.mem_map.mp hmem with ⟨r', hr', hid'⟩
      have h2 := pending_get st r' hwf hr'
      rw [hid', h] at h2
      exact Option.noConfusion h2
    rw [hCk, H.2.2.2 id hnotmem, h]

/-- Witness for C7: a PENDING review created at time 0, swept at 61 minutes
with a 60-minute timeout, is counted and ends EXPIRED. -/
theorem spec_C7_witness :
    WFStore exStore ∧
    (checkForExpiredReviews exStore 3660000 60).1 = 1 ∧
    getReviewById (checkForExpiredReviews exStore 3660000 60).2 "r1" =
      some { exReview with status := ReviewStatus.expired } := by
  have hwf : WFStore exStore := by unfold WFStore; decide
  have hlt : (60 : ℚ) < (3660000 - exReview.timestamp) / (1000 * 60) := by
    norm_num [exReview]
  refine ⟨hwf, ?_, ?_⟩
  · rw [(spec_C7 exStore 3660000 60 hwf).1]
    have hpend : getPendingReviews exStore = [exReview] := by decide
    rw [hpend]
    simp [List.filter, hlt]
  · rw [(spec_C7 exStore 3660000 60 hwf).2.1 "r1" exReview (by decide),
      if_pos ⟨by decide, hlt⟩]

/-- C10: `updateReviewAnswer` returns and stores the record with only
`proposedAnswer` replaced; every other field is preserved, the record is
still retrievable under the same review id, and it is still readable under
its unchanged status association. -/
theorem spec_C10 (st : Store) (id ans : String) (r : Review)
    (h : getReviewById st id = some r) :
    (updateReviewAnswer st id ans).1 = some { r with proposedAnswer := ans } ∧
    getReviewById (updateReviewAnswer st id ans).2 id = some { r with proposedAnswer := ans } ∧
    ({ r with proposedAnswer := ans } : Review).proposedAnswer = ans ∧
    ({ r with proposedAnswer := ans } : Review).reviewId = r.reviewId ∧
    ({ r with proposedAnswer := ans } : Review).status = r.status ∧
    ({ r with proposedAnswer := ans } : Review).roomId = r.roomId ∧
    ({ r with proposedAnswer := ans } : Review).roomType = r.roomType ∧
    ({ r with proposedAnswer := ans } : Review).roomName = r.roomName ∧
    ({ r with proposedAnswer := ans } : Review).senderId = r.senderId ∧
    ({ r with proposedAnswer := ans } : Review).senderUsername = r.senderUsername ∧
    ({ r with proposedAnswer := ans } : Review).originalMessage = r.originalMessage ∧
    ({ r with proposedAnswer := ans } : Review).detectedQuestion = r.detectedQuestion ∧
    ({ r with proposedAnswer := ans } : Review).messageId = r.messageId ∧
    ({ r with proposedAnswer := ans } : Review).timestamp = r.timestamp ∧
    { r with proposedAnswer := ans } ∈
      readByAssociation (Assoc.status r.status) (updateReviewAnswer st id ans).2 := by
  have H := getReviewByAnswer_update_self st id ans r h
  refine ⟨H.1, H.2, rfl, rfl, rfl, rfl, rfl, rfl, rfl, rfl, rfl, rfl, rfl, rfl, ?_⟩
  unfold updateReviewAnswer
  rw [h]
  dsimp only
  rw [readByAssociation_create, if_pos (by simp)]
  exact List.mem_append_right _ (List.mem_singleton.mpr rfl)

/-- Witness for C10 at a concrete store. -/
theorem spec_C10_witness :
    getReviewById exStore "r1" = some exReview ∧
    getReviewById (updateReviewAnswer exStore "r1" "better answer").2 "r1" =
      some { exReview with proposedAnswer := "better answer" } :=
  ⟨by decide, (spec_C10 exStore "r1" "better answer" exReview (by decide)).2.1⟩

/-- C1: the claim fails on the code. Neither `handleApproveAction` nor
`updateReviewStatus` checks the current status, so approving the same
initially-PENDING review twice succeeds both times and delivers the answer
to the source room twice; this theorem evaluates the handler at that
failing input. -/
theorem spec_C1 :
    (handleApproveAction exEnv exWorld "r1" "alice").2 = none ∧
    (handleApproveAction exEnv (handleApproveAction exEnv exWorld "r1" "alice").1
      "r1" "alice").2 = none ∧
    getReviewById (handleApproveAction exEnv (handleApproveAction exEnv exWorld "r1" "alice").1
      "r1" "alice").1.store "r1" = some { exReview with status := ReviewStatus.approved } ∧
    (handleApproveAction exEnv (handleApproveAction exEnv exWorld "r1" "alice").1
      "r1" "alice").1.delivered.length = 2 := by
  refine ⟨?_, ?_, ?_, ?_⟩ <;> decide

/-- C6 (amended): for a review in state EDITING, submit-edit with a
non-empty text replaces `proposedAnswer` by that text, moves the status to
APPROVED, and delivers the corrected answer to the source room exactly
once. (With an empty text the code skips the replacement, see the
counterexample.) -/
theorem spec_C6 (env : Env) (w : World) (id uname text : String) (r : Review)
    (hr : getReviewById w.store id = some r)
    (_hst : r.status = ReviewStatus.editing)
    (hroom : env.roomExists r.roomId = true)
    (huser : env.userExists r.senderId = true)
    (happ : env.appUserExists = true)
    (htext : text ≠ "") :
    (handleSubmitEdit env w id uname text).2 = none ∧
    getReviewById (handleSubmitEdit env w id uname text).1.store id =
      some { r with proposedAnswer := text, status := ReviewStatus.approved } ∧
    (handleSubmitEdit env w id uname text).1.delivered = w.delivered ++ [(r.roomId, text)] := by
  have Hup := getReviewByAnswer_update_self w.store id text r hr
  set w1 : World := { w with store := (updateReviewAnswer w.store id text).2 } with hw1
  have hr1 : getReviewById w1.store id = some { r with proposedAnswer := text } := Hup.2
  have Hup2 := getReviewById_update_self w1.store id ReviewStatus.approved _ hr1
  have hPER : (processEditedResponse env w1 id uname).2 = none ∧
      (processEditedResponse env w1 id uname).1.store =
        (updateReviewStatus w1.store id ReviewStatus.approved).2 ∧
      (processEditedResponse env w1 id uname).1.delivered =
        w1.delivered ++ [(r.roomId, text)] := by
    unfold processEditedResponse
    rw [hr1]
    dsimp only
    rw [hroom, huser]
    simp only [if_pos rfl]
    cases env.faqLogChannel with
    | none =>
      rw [happ]
      simp only [if_pos rfl]
      exact ⟨rfl, rfl, rfl⟩
    | some ch =>
      rw [happ]
      simp only [if_pos rfl]
      exact ⟨rfl, rfl, rfl⟩
  unfold handleSubmitEdit
  rw [hr]
  dsimp only
  rw [if_pos htext]
  have hsplit : processEditedResponse env w1 id uname =
      ((processEditedResponse env w1 id uname).1, none) := by
    rw [← hPER.1]
  rw [hsplit]
  dsimp only
  rw [happ]
  simp only [if_pos rfl]
  refine ⟨rfl, ?_, ?_⟩
  · show getReviewById (processEditedResponse env w1 id uname).1.store id = _
    rw [hPER.2.1, Hup2.2]
  · show (processEditedResponse env w1 id uname).1.delivered = _
    rw [hPER.2.2]

/-- Witness for C6 at a concrete EDITING review and non-empty text. -/
theorem spec_C6_witness :
    (handleSubmitEdit exEnv exWorldEditing "r1" "rev" "new text").2 = none ∧
    getReviewById (handleSubmitEdit exEnv exWorldEditing "r1" "rev" "new text").1.store "r1" =
      some { exReviewEditing with proposedAnswer := "new text", status := ReviewStatus.approved } ∧
    (handleSubmitEdit exEnv exWorldEditing "r1" "rev" "new text").1.delivered =
      exWorldEditing.delivered ++ [(exReviewEditing.roomId, "new text")] :=
  spec_C6 exEnv exWorldEditing "r1" "rev" "new text" exReviewEditing
    (by decide) (by decide) (by decide) (by decide) (by decide) (by decide)

/-- Counterexample for C6 as stated: submit-edit with the empty text (a
falsy value in the source) leaves `proposedAnswer` unreplaced — the review
still ends APPROVED with one delivery, but the old answer is both kept and
delivered, contradicting "`proposedAnswer` replaced by `text`" for
`text = ""`. -/
theorem spec_C6_counterexample :
    getReviewById exStoreEditing "r1" = some exReviewEditing ∧
    exReviewEditing.status = ReviewStatus.editing ∧
    (handleSubmitEdit exEnv exWorldEditing "r1" "rev" "").1.delivered =
      [("room1", "old answer")] ∧
    getReviewById (handleSubmitEdit exEnv exWorldEditing "r1" "rev" "").1.store "r1" =
      some { exReviewEditing with status := ReviewStatus.approved } ∧
    ({ exReviewEditing with status := ReviewStatus.approved } : Review).proposedAnswer ≠ "" := by
  refine ⟨?_, ?_, ?_, ?_, ?_⟩ <;> decide

theorem lookup_mem {β : Type} (l : List (String × β)) (t : String) (v : β)
    (h : l.lookup t = some v) : (t, v) ∈ l := by
  induction l with
  | nil => simp at h
  | cons p rest ih =>
    rcases p with ⟨k, w⟩
    rw [List.lookup_cons] at h
    cases hbk : (t == k) with
    | true =>
      rw [hbk] at h
      injection h with h2
      subst h2
      have hk : t = k := beq_iff_eq.mp hbk
      subst hk
      exact List.mem_cons_self _ _
    | false =>
      rw [hbk] at h
      exact List.mem_cons_of_mem _ (ih h)

theorem setTerm_mem {q : String × List Nat} :
    ∀ (terms : List (String × List Nat)) (t : String) (arr : List Nat),
      q ∈ setTerm terms t arr → q = (t, arr) ∨ q ∈ terms := by
  intro terms
  induction terms with
  | nil =>
    intro t arr h
    unfold setTerm at h
    simp at h
    exact Or.inl h
  | cons p rest ih =>
    intro t arr h
    rcases p with ⟨k, w⟩
    unfold setTerm at h
    by_cases hk : k = t
    · rw [if_pos hk] at h
      rcases List.mem_cons.mp h with h1 | h1
      · exact Or.inl h1
      · exact Or.inr (List.mem_cons_of_mem _ h1)
    · rw [if_neg hk] at h
      rcases List.mem_cons.mp h with h1 | h1
      · exact Or.inr (h1 ▸ List.mem_cons_self _ _)
      · rcases ih t arr h1 with h2 | h2
        · exact Or.inl h2
        · exact Or.inr (List.mem_cons_of_mem _ h2)

theorem padTo_length (arr : List Nat) (n : Nat) :
    (padTo arr n).length = arr.length + (n - arr.length) := by
  unfold padTo
  simp

theorem insertTermEntry_inv (nDocs docIndex : Nat) (hn : 1 ≤ nDocs)
    (terms : List (String × List Nat)) (t : String) (freq : Nat)
    (hinv : ∀ p ∈ terms, 1 ≤ p.2.length ∧ p.2.length ≤ nDocs) :
    ∀ p ∈ insertTermEntry nDocs docIndex terms t freq,
      1 ≤ p.2.length ∧ p.2.length ≤ nDocs := by
  intro p hp
  unfold insertTermEntry at hp
  rcases setTerm_mem terms t _ hp with h1 | h1
  · subst h1
    have harr : ((terms.lookup t).getD (List.replicate nDocs 0)).length ≤ nDocs := by
      cases hl : terms.lookup t with
      | none => simp
      | some arr =>
        have := (hinv (t, arr) (lookup_mem terms t arr hl)).2
        simpa using this
    constructor
    · simp only [List.length_set, padTo_length]
      omega
    · simp only [List.length_set, padTo_length]
      omega
  · exact hinv p h1

theorem indexStep_inv (acc : List String × List (String × List Nat) × List Nat) (faq : FAQ)
    (hinv : ∀ p ∈ acc.2.1, 1 ≤ p.2.length ∧ p.2.length ≤ acc.1.length) :
    (indexStep acc faq).1.length = acc.1.length + 1 ∧
    (∀ p ∈ (indexStep acc faq).2.1,
      1 ≤ p.2.length ∧ p.2.length ≤ (indexStep acc faq).1.length) ∧
    (indexStep acc faq).2.2.length = acc.2.2.length + 1 := by
  unfold indexStep
  dsimp only
  have hD : (acc.1 ++ [faq.question]).length = acc.1.length + 1 := by simp
  refine ⟨by simp, ?_, by simp⟩
  have hgen : ∀ (toks : List String) (ts : List (String × List Nat)),
      (∀ p ∈ ts, 1 ≤ p.2.length ∧ p.2.length ≤ (acc.1 ++ [faq.question]).length) →
      ∀ p ∈ toks.foldl
        (fun ts t => insertTermEntry (acc.1 ++ [faq.question]).length
          ((acc.1 ++ [faq.question]).length - 1) ts t ((tokenize faq.question).count t)) ts,
        1 ≤ p.2.length ∧ p.2.length ≤ (acc.1 ++ [faq.question]).length := by
    intro toks
    induction toks with
    | nil => intro ts hts p hp; exact hts p hp
    | cons x xs ih =>
      intro ts hts p hp
      rw [List.foldl_cons] at hp
      exact ih _ (insertTermEntry_inv _ _ (by rw [hD]; omega) ts x _ hts) p hp
  exact hgen _ acc.2.1
    (fun p hp => ⟨(hinv p hp).1, by rw [hD]; exact Nat.le_succ_of_le (hinv p hp).2⟩)

theorem indexFaqs_fold_inv (faqs : List FAQ) :
    ∀ (acc : List String × List (String × List Nat) × List Nat),
      (∀ p ∈ acc.2.1, 1 ≤ p.2.length ∧ p.2.length ≤ acc.1.length) →
      (faqs.foldl indexStep acc).1.length = acc.1.length + faqs.length ∧
      (∀ p ∈ (faqs.foldl indexStep acc).2.1,
        1 ≤ p.2.length ∧ p.2.length ≤ (faqs.foldl indexStep acc).1.length) := by
  induction faqs with
  | nil => intro acc hinv; exact ⟨by simp, hinv⟩
  | cons f rest ih =>
    intro acc hinv
    have hstep := indexStep_inv acc f hinv
    rw [List.foldl_cons]
    have IH := ih (indexStep acc f) hstep.2.1
    refine ⟨?_, IH.2⟩
    rw [IH.1, hstep.1]
    simp [Nat.add_assoc, Nat.add_comm 1 rest.length]

theorem indexFaqs_documents_length (faqs : List FAQ) :
    (indexFaqs faqs).documents.length = faqs.length := by
  have h := indexFaqs_fold_inv faqs ([], [], []) (by simp)
  simpa using h.1

theorem indexFaqs_terms_inv (faqs : List FAQ) :
    ∀ p ∈ (indexFaqs faqs).terms, 1 ≤ p.2.length ∧ p.2.length ≤ faqs.length := by
  have h := indexFaqs_fold_inv faqs ([], [], []) (by simp)
  have h1 : (faqs.foldl indexStep ([], [], [])).1.length = faqs.length := by
    simpa using h.1
  intro p hp
  obtain ⟨h2, h3⟩ := h.2 p hp
  omega

theorem indexFaqs_avg_nonneg (faqs : List FAQ) : (0 : ℚ) ≤ (indexFaqs faqs).avgDocLength := by
  unfold indexFaqs
  dsimp only
  apply div_nonneg
  · exact_mod_cast Nat.zero_le _
  · exact_mod_cast Nat.zero_le _

theorem getIdf_nonneg (idx : BM25Index)
    (hN : ∀ p ∈ idx.terms, p.2.length ≤ idx.documents.length) (t : String) :
    0 ≤ BM25Service.getIdf idx t := by
  unfold BM25Service.getIdf
  cases hl : idx.terms.lookup t with
  | none => dsimp only; exact le_refl 0
  | some termDocs =>
    dsimp only
    apply Real.log_nonneg
    have hlen := hN (t, termDocs) (lookup_mem idx.terms t termDocs hl)
    have hle : (((termDocs.filter (fun f => 0 < f)).length : ℕ) : ℝ) ≤
        ((idx.documents.length : ℕ) : ℝ) := by
      exact_mod_cast le_trans (List.length_filter_le _ _) hlen
    have hpos : (0 : ℝ) < (((termDocs.filter (fun f => 0 < f)).length : ℕ) : ℝ) + 0.5 := by
      positivity
    have hnum : (0 : ℝ) ≤ ((idx.documents.length : ℕ) : ℝ) -
        (((termDocs.filter (fun f => 0 < f)).length : ℕ) : ℝ) + 0.5 := by linarith
    have hdiv := div_nonneg hnum (le_of_lt hpos)
    linarith

theorem scoreStep_mono (idx : BM25Index)
    (hinv1 : ∀ p ∈ idx.terms, 1 ≤ p.2.length)
    (hN : ∀ p ∈ idx.terms, p.2.length ≤ idx.documents.length)
    (havg : 0 ≤ idx.avgDocLength) (t : String) (x : ℝ) :
    ∃ y, BM25Service.scoreStep idx 0 (some x) t = some y ∧ x ≤ y := by
  unfold BM25Service.scoreStep
  cases hl : idx.terms.lookup t with
  | none =>
    exact ⟨x, rfl, le_refl x⟩
  | some termFreqs =>
    dsimp only
    have hlen : 1 ≤ termFreqs.length := hinv1 (t, termFreqs) (lookup_mem _ _ _ hl)
    obtain ⟨v, hv⟩ : ∃ v, termFreqs[0]? = some v :=
      ⟨termFreqs.get ⟨0, by omega⟩, List.getElem?_eq_getElem (by omega)⟩
    rw [hv]
    cases v with
    | zero => exact ⟨x, rfl, le_refl x⟩
    | succ m =>
      refine ⟨_, rfl, ?_⟩
      apply le_add_of_nonneg_right
      apply mul_nonneg (getIdf_nonneg idx hN t)
      apply div_nonneg
      · unfold BM25Service.k1
        positivity
      · have hq : (0 : ℝ) ≤ ((idx.docLengths.getD 0 0 : ℕ) : ℝ) / ((idx.avgDocLength : ℚ) : ℝ) := by
          apply div_nonneg
          · exact_mod_cast Nat.zero_le _
          · exact_mod_cast havg
        unfold BM25Service.k1 BM25Service.b
        have hm : (0 : ℝ) ≤ ((m + 1 : ℕ) : ℝ) := by exact_mod_cast Nat.zero_le _
        nlinarith

theorem scoreDoc_zero (idx : BM25Index)
    (hinv1 : ∀ p ∈ idx.terms, 1 ≤ p.2.length)
    (hN : ∀ p ∈ idx.terms, p.2.length ≤ idx.documents.length)
    (havg : 0 ≤ idx.avgDocLength) (toks : List String) :
    ∃ a, BM25Service.scoreDoc idx toks 0 = some a ∧ 0 ≤ a := by
  suffices h : ∀ (ts : List String) (x : ℝ),
      ∃ y, ts.foldl (BM25Service.scoreStep idx 0) (some x) = some y ∧ x ≤ y by
    obtain ⟨y, hy, hxy⟩ := h toks 0
    exact ⟨y, hy, hxy⟩
  intro ts
  induction ts with
  | nil => exact fun x => ⟨x, rfl, le_refl x⟩
  | cons t ts2 ih =>
    intro x
    obtain ⟨y, hy, hxy⟩ := scoreStep_mono idx hinv1 hN havg t x
    rw [List.foldl_cons, hy]
    obtain ⟨z, hz, hyz⟩ := ih y
    exact ⟨z, hz, le_trans hxy hyz⟩

theorem bestGo_fst_le (l : List (Option ℝ)) :
    ∀ (i : Nat) (acc : ℝ × ℤ), acc.1 ≤ (BM25Service.bestGo l i acc).1 := by
  induction l with
  | nil => intro i acc; exact le_refl _
  | cons s rest ih =>
    intro i acc
    have hred : BM25Service.bestGo (s :: rest) i acc =
        BM25Service.bestGo rest (i + 1)
          (match s with
           | none => acc
           | some a => if acc.1 < a then (a, (i : ℤ)) else acc) := rfl
    rw [hred]
    cases s with
    | none => exact ih (i + 1) acc
    | some a =>
      dsimp only
      by_cases hlt : acc.1 < a
      · rw [if_pos hlt]
        exact le_trans (le_of_lt hlt) (ih (i + 1) (a, (i : ℤ)))
      · rw [if_neg hlt]
        exact ih (i + 1) acc

theorem bestGo_cases (l : List (Option ℝ)) :
    ∀ (i : Nat) (acc : ℝ × ℤ),
      BM25Service.bestGo l i acc = acc ∨
      ((i : ℤ) ≤ (BM25Service.bestGo l i acc).2 ∧
        (BM25Service.bestGo l i acc).2 < (i : ℤ) + l.length) := by
  induction l with
  | nil => intro i acc; exact Or.inl rfl
  | cons s rest ih =>
    intro i acc
    have hred : BM25Service.bestGo (s :: rest) i acc =
        BM25Service.bestGo rest (i + 1)
          (match s with
           | none => acc
           | some a => if acc.1 < a then (a, (i : ℤ)) else acc) := rfl
    rw [hred]
    have hlen : ((s :: rest).length : ℤ) = (rest.length : ℤ) + 1 := by
      simp
    cases s with
    | none =>
      rcases ih (i + 1) acc with h1 | h1
      · exact Or.inl h1
      · refine Or.inr ⟨le_trans (by exact_mod_cast Nat.le_succ i) h1.1, ?_⟩
        have := h1.2
        push_cast at this ⊢
        linarith
    | some a =>
      dsimp only
      by_cases hlt : acc.1 < a
      · rw [if_pos hlt]
        rcases ih (i + 1) (a, (i : ℤ)) with h1 | h1
        · rw [h1]
          refine Or.inr ⟨le_refl _, ?_⟩
          push_cast
          linarith [Int.ofNat_nonneg rest.length]
        · refine Or.inr ⟨le_trans (by exact_mod_cast Nat.le_succ i) h1.1, ?_⟩
          have := h1.2
          push_cast at this ⊢
          linarith
      · rw [if_neg hlt]
        rcases ih (i + 1) acc with h1 | h1
        · exact Or.inl h1
        · refine Or.inr ⟨le_trans (by exact_mod_cast Nat.le_succ i) h1.1, ?_⟩
          have := h1.2
          push_cast at this ⊢
          linarith

/-- C5 (amended): on a non-empty indexed corpus, `search` returns a score
greater than or equal to 0 and a non-null best entry, and `isDirectMatch`
holds exactly when the score reaches the threshold, exact at equality. (On
an empty corpus the returned score is the `-1` sentinel of the maximum
loop, see the counterexample.) -/
theorem spec_C5 (faqs : List FAQ) (query : String) (θ : ℝ) (h : faqs ≠ []) :
    0 ≤ (BM25Service.search (indexFaqs faqs) faqs query θ).score ∧
    (BM25Service.search (indexFaqs faqs) faqs query θ).faq ≠ none ∧
    ((BM25Service.search (indexFaqs faqs) faqs query θ).isDirectMatch ↔
      θ ≤ (BM25Service.search (indexFaqs faqs) faqs query θ).score) := by
  obtain ⟨n, hn⟩ : ∃ n, faqs.length = n + 1 := by
    cases faqs with
    | nil => exact absurd rfl h
    | cons a l => exact ⟨l.length, rfl⟩
  have hdocs : (indexFaqs faqs).documents.length = faqs.length :=
    indexFaqs_documents_length faqs
  have hinv := indexFaqs_terms_inv faqs
  have hinv1 : ∀ p ∈ (indexFaqs faqs).terms, 1 ≤ p.2.length := fun p hp => (hinv p hp).1
  have hN : ∀ p ∈ (indexFaqs faqs).terms, p.2.length ≤ (indexFaqs faqs).documents.length := by
    intro p hp
    rw [hdocs]
    exact (hinv p hp).2
  have havg := indexFaqs_avg_nonneg faqs
  obtain ⟨a, ha, ha0⟩ := scoreDoc_zero (indexFaqs faqs) hinv1 hN havg (tokenize query)
  have hsc : BM25Service.calculateScores (indexFaqs faqs) (tokenize query) =
      some a :: ((List.range n).map
        (fun k => BM25Service.scoreDoc (indexFaqs faqs) (tokenize query) (k + 1))) := by
    unfold BM25Service.calculateScores
    rw [hdocs, hn, List.range_succ_eq_map, List.map_cons, ha, List.map_map]
    rfl
  have hstep : BM25Service.bestScore
      (BM25Service.calculateScores (indexFaqs faqs) (tokenize query)) =
      BM25Service.bestGo ((List.range n).map
        (fun k => BM25Service.scoreDoc (indexFaqs faqs) (tokenize query) (k + 1))) 1 (a, 0) := by
    rw [hsc]
    unfold BM25Service.bestScore
    have h1 : BM25Service.bestGo (some a :: (List.range n).map
        (fun k => BM25Service.scoreDoc (indexFaqs faqs) (tokenize query) (k + 1))) 0 (-1, -1) =
        BM25Service.bestGo ((List.range n).map
          (fun k => BM25Service.scoreDoc (indexFaqs faqs) (tokenize query) (k + 1))) 1
          (if ((-1 : ℝ), (-1 : ℤ)).1 < a then (a, ((0 : ℕ) : ℤ)) else ((-1 : ℝ), (-1 : ℤ))) := rfl
    rw [h1, if_pos (show ((-1 : ℝ), (-1 : ℤ)).1 < a by dsimp only; linarith)]
    norm_num
  have hfst : a ≤ (BM25Service.bestScore
      (BM25Service.calculateScores (indexFaqs faqs) (tokenize query))).1 := by
    rw [hstep]
    exact bestGo_fst_le _ 1 (a, 0)
  have hsnd : 0 ≤ (BM25Service.bestScore
        (BM25Service.calculateScores (indexFaqs faqs) (tokenize query))).2 ∧
      (BM25Service.bestScore
        (BM25Service.calculateScores (indexFaqs faqs) (tokenize query))).2 < faqs.length := by
    rw [hstep]
    rcases bestGo_cases ((List.range n).map
      (fun k => BM25Service.scoreDoc (indexFaqs faqs) (tokenize query) (k + 1))) 1 (a, 0)
      with h1 | h1
    · rw [h1]
      constructor
      · exact le_refl 0
      · rw [hn]
        show (0 : ℤ) < ((n + 1 : ℕ) : ℤ)
        push_cast
        linarith
    · constructor
      · linarith [h1.1]
      · have h2 := h1.2
        rw [List.length_map, List.length_range] at h2
        rw [hn]
        push_cast at h2 ⊢
        linarith
  have hscore : (BM25Service.search (indexFaqs faqs) faqs query θ).score =
      (BM25Service.bestScore
        (BM25Service.calculateScores (indexFaqs faqs) (tokenize query))).1 := rfl
  refine ⟨?_, ?_, Iff.rfl⟩
  · rw [hscore]
    linarith
  · show (if 0 ≤ (BM25Service.bestScore
        (BM25Service.calculateScores (indexFaqs faqs) (tokenize query))).2 then
        faqs[(BM25Service.bestScore
          (BM25Service.calculateScores (indexFaqs faqs) (tokenize query))).2.toNat]? else none) ≠ none
    rw [if_pos hsnd.1]
    have hlt : (BM25Service.bestScore
        (BM25Service.calculateScores (indexFaqs faqs) (tokenize query))).2.toNat < faqs.length := by
      have := hsnd.2
      omega
    rw [List.getElem?_eq_getElem hlt]
    simp

/-- Witness for C5 on the one-entry corpus. -/
theorem spec_C5_witness :
    ([helloFaq] : List FAQ) ≠ [] ∧
    0 ≤ (BM25Service.search (indexFaqs [helloFaq]) [helloFaq] "hello everyone" 0.99).score ∧
    (BM25Service.search (indexFaqs [helloFaq]) [helloFaq] "hello everyone" 0.99).faq ≠ none ∧
    ((BM25Service.search (indexFaqs [helloFaq]) [helloFaq] "hello everyone" 0.99).isDirectMatch ↔
      (0.99 : ℝ) ≤ (BM25Service.search (indexFaqs [helloFaq]) [helloFaq] "hello everyone" 0.99).score) :=
  ⟨by decide, spec_C5 [helloFaq] "hello everyone" 0.99 (by decide)⟩

/-- Counterexample for C5 as stated: against an empty corpus the maximum
loop never runs and `search` returns its `-1` sentinel as the score, which
is negative. -/
theorem spec_C5_counterexample :
    ¬ (0 ≤ (BM25Service.search (indexFaqs []) [] "hello there" 0.99).score) := by
  have h : (BM25Service.search (indexFaqs []) [] "hello there" 0.99).score = -1 := rfl
  rw [h]
  norm_num

theorem bestScore_pos (scores : List (Option ℝ))
    (h : -1 < (BM25Service.bestScore scores).1) :
    0 ≤ (BM25Service.bestScore scores).2 ∧
      (BM25Service.bestScore scores).2 < scores.length := by
  unfold BM25Service.bestScore at h ⊢
  rcases bestGo_cases scores 0 (-1, -1) with h1 | h1
  · rw [h1] at h
    exact absurd h (by norm_num)
  · refine ⟨h1.1, ?_⟩
    have := h1.2
    simpa using this

theorem threshold_ge (faqs : List FAQ) (θ : ℝ) :
    (0.99 : ℝ) ≤ (MessageClassifier.create faqs θ).similarityThreshold := by
  unfold MessageClassifier.create
  dsimp only
  by_cases hcas : θ < 0.99
  · rw [if_pos hcas]
  · rw [if_neg hcas]
    linarith [not_lt.mp hcas]

/-- C2: classification returns Unrelated exactly for messages shorter than
5 characters; a message of length at least 5 is Alpha with the matched
entry and score whenever `search` reports a direct match, and Beta in
every other case — the later classifier revision has no
looks-like-a-question gate and no zero-score Unrelated bucket. -/
theorem spec_C2 (faqs : List FAQ) (θ : ℝ) (msg : String) :
    ((classifyMessage (MessageClassifier.create faqs θ) msg).type = MessageType.unrelated ↔
      msg.length < 5) ∧
    (5 ≤ msg.length →
      ((BM25Service.search (indexFaqs faqs) faqs msg
          (MessageClassifier.create faqs θ).similarityThreshold).isDirectMatch →
        classifyMessage (MessageClassifier.create faqs θ) msg =
          { type := MessageType.alpha,
            matchedFaq := (BM25Service.search (indexFaqs faqs) faqs msg
              (MessageClassifier.create faqs θ).similarityThreshold).faq,
            score := (BM25Service.search (indexFaqs faqs) faqs msg
              (MessageClassifier.create faqs θ).similarityThreshold).score,
            message := msg }) ∧
      (¬ (BM25Service.search (indexFaqs faqs) faqs msg
          (MessageClassifier.create faqs θ).similarityThreshold).isDirectMatch →
        (classifyMessage (MessageClassifier.create faqs θ) msg).type = MessageType.beta)) := by
  by_cases h5 : msg.length < 5
  · have hcl : classifyMessage (MessageClassifier.create faqs θ) msg =
        { type := MessageType.unrelated, matchedFaq := none, score := 0, message := msg } := by
      unfold classifyMessage
      rw [if_pos h5]
    refine ⟨?_, ?_⟩
    · rw [hcl]
      exact ⟨fun _ => h5, fun _ => rfl⟩
    · intro h5'
      omega
  · have hdm_some : (BM25Service.search (indexFaqs faqs) faqs msg
        (MessageClassifier.create faqs θ).similarityThreshold).isDirectMatch →
        (BM25Service.search (indexFaqs faqs) faqs msg
          (MessageClassifier.create faqs θ).similarityThreshold).faq.isSome := by
      intro hdm
      have hle : (MessageClassifier.create faqs θ).similarityThreshold ≤
          (BM25Service.bestScore
            (BM25Service.calculateScores (indexFaqs faqs) (tokenize msg))).1 := hdm
      have hgt : -1 < (BM25Service.bestScore
          (BM25Service.calculateScores (indexFaqs faqs) (tokenize msg))).1 := by
        have := threshold_ge faqs θ
        linarith
      have hbest := bestScore_pos _ hgt
      have hlen : (BM25Service.calculateScores (indexFaqs faqs) (tokenize msg)).length =
          faqs.length := by
        unfold BM25Service.calculateScores
        rw [List.length_map, List.length_range, indexFaqs_documents_length]
      have hfaq : (BM25Service.search (indexFaqs faqs) faqs msg
          (MessageClassifier.create faqs θ).similarityThreshold).faq =
          if 0 ≤ (BM25Service.bestScore
              (BM25Service.calculateScores (indexFaqs faqs) (tokenize msg))).2 then
            faqs[(BM25Service.bestScore
              (BM25Service.calculateScores (indexFaqs faqs) (tokenize msg))).2.toNat]?
          else none := rfl
      have htn : (BM25Service.bestScore
          (BM25Service.calculateScores (indexFaqs faqs) (tokenize msg))).2.toNat <
          faqs.length := by
        have h2 := hbest.2
        rw [hlen] at h2
        omega
      rw [hfaq, if_pos hbest.1, List.getElem?_eq_getElem htn]
      simp
    have hb : (MessageClassifier.create faqs θ).bm25Service = indexFaqs faqs := rfl
    have hf : (MessageClassifier.create faqs θ).faqs = faqs := rfl
    refine ⟨⟨?_, fun h5c => absurd h5c h5⟩, fun _ => ⟨?_, ?_⟩⟩
    · intro htype
      exfalso
      unfold classifyMessage at htype
      rw [if_neg h5] at htype
      dsimp only at htype
      rw [hb, hf] at htype
      by_cases hdm : (BM25Service.search (indexFaqs faqs) faqs msg
          (MessageClassifier.create faqs θ).similarityThreshold).isDirectMatch ∧
          (BM25Service.search (indexFaqs faqs) faqs msg
            (MessageClassifier.create faqs θ).similarityThreshold).faq.isSome
      · rw [if_pos hdm] at htype
        simp at htype
      · rw [if_neg hdm] at htype
        simp at htype
    · intro hdm
      unfold classifyMessage
      rw [if_neg h5]
      dsimp only
      rw [hb, hf, if_pos ⟨hdm, hdm_some hdm⟩]
    · intro hdm
      unfold classifyMessage
      rw [if_neg h5]
      dsimp only
      rw [hb, hf, if_neg (fun hh => hdm hh.1)]

theorem create_threshold_eq (faqs : List FAQ) :
    (MessageClassifier.create faqs 0.99).similarityThreshold = 0.99 := by
  unfold MessageClassifier.create
  dsimp only
  rw [if_neg (by norm_num : ¬ (0.99 : ℝ) < 0.99)]

theorem xyzzy_scores :
    BM25Service.calculateScores (indexFaqs [helloFaq]) (tokenize "xyzzy plugh") =
      [some (0 : ℝ)] := by
  rw [show tokenize "xyzzy plugh" = ["xyzzy", "plugh"] from by decide]
  unfold BM25Service.calculateScores
  rw [show (indexFaqs [helloFaq]).documents.length = 1 from by decide,
    show List.range 1 = [0] from rfl, List.map_cons, List.map_nil]
  have h1 : BM25Service.scoreStep (indexFaqs [helloFaq]) 0 (some (0 : ℝ)) "xyzzy" =
      some (0 : ℝ) := by
    unfold BM25Service.scoreStep
    rw [show (indexFaqs [helloFaq]).terms.lookup "xyzzy" = none from by decide]
  have h2 : BM25Service.scoreStep (indexFaqs [helloFaq]) 0 (some (0 : ℝ)) "plugh" =
      some (0 : ℝ) := by
    unfold BM25Service.scoreStep
    rw [show (indexFaqs [helloFaq]).terms.lookup "plugh" = none from by decide]
  unfold BM25Service.scoreDoc
  rw [List.foldl_cons, h1, List.foldl_cons, h2, List.foldl_nil]

theorem bestScore_single_zero : BM25Service.bestScore [some (0 : ℝ)] = (0, 0) := by
  unfold BM25Service.bestScore
  have h1 : BM25Service.bestGo [some (0 : ℝ)] 0 (-1, -1) =
      BM25Service.bestGo [] 1
        (if ((-1 : ℝ), (-1 : ℤ)).1 < (0 : ℝ) then ((0 : ℝ), ((0 : ℕ) : ℤ))
         else ((-1 : ℝ), (-1 : ℤ))) := rfl
  rw [h1, if_pos (show ((-1 : ℝ), (-1 : ℤ)).1 < (0 : ℝ) by norm_num)]
  rfl

theorem xyzzy_search_score :
    (BM25Service.search (indexFaqs [helloFaq]) [helloFaq] "xyzzy plugh"
      (MessageClassifier.create [helloFaq] 0.99).similarityThreshold).score = 0 := by
  show (BM25Service.bestScore (BM25Service.calculateScores (indexFaqs [helloFaq])
    (tokenize "xyzzy plugh"))).1 = 0
  rw [xyzzy_scores, bestScore_single_zero]

theorem xyzzy_not_direct :
    ¬ (BM25Service.search (indexFaqs [helloFaq]) [helloFaq] "xyzzy plugh"
      (MessageClassifier.create [helloFaq] 0.99).similarityThreshold).isDirectMatch := by
  intro hle
  have h : (MessageClassifier.create [helloFaq] 0.99).similarityThreshold ≤
      (BM25Service.bestScore (BM25Service.calculateScores (indexFaqs [helloFaq])
        (tokenize "xyzzy plugh"))).1 := hle
  rw [xyzzy_scores, bestScore_single_zero, create_threshold_eq] at h
  norm_num at h

/-- C9 (amended): for a message of length at least 5 that is not a direct
match, the Beta result's score equals the raw ranking score when that score
is positive, and is replaced by the substitute 0.1 otherwise. -/
theorem spec_C9 (faqs : List FAQ) (θ : ℝ) (msg : String) (h5 : 5 ≤ msg.length)
    (hdm : ¬ (BM25Service.search (indexFaqs faqs) faqs msg
        (MessageClassifier.create faqs θ).similarityThreshold).isDirectMatch) :
    (classifyMessage (MessageClassifier.create faqs θ) msg).type = MessageType.beta ∧
    (classifyMessage (MessageClassifier.create faqs θ) msg).score =
      (if 0 < (BM25Service.search (indexFaqs faqs) faqs msg
          (MessageClassifier.create faqs θ).similarityThreshold).score then
        (BM25Service.search (indexFaqs faqs) faqs msg
          (MessageClassifier.create faqs θ).similarityThreshold).score
       else 0.1) := by
  have hb : (MessageClassifier.create faqs θ).bm25Service = indexFaqs faqs := rfl
  have hf : (MessageClassifier.create faqs θ).faqs = faqs := rfl
  unfold classifyMessage
  rw [if_neg (by omega : ¬ msg.length < 5)]
  dsimp only
  rw [hb, hf, if_neg (fun hh => hdm hh.1)]
  exact ⟨rfl, rfl⟩

/-- Counterexample for C9 as stated: a long unmatched message is Beta with
raw ranking score 0, but the classifier records 0.1 instead of the raw
score. -/
theorem spec_C9_counterexample :
    (classifyMessage (MessageClassifier.create [helloFaq] 0.99) "xyzzy plugh").type =
      MessageType.beta ∧
    (BM25Service.search (indexFaqs [helloFaq]) [helloFaq] "xyzzy plugh"
      (MessageClassifier.create [helloFaq] 0.99).similarityThreshold).score = 0 ∧
    (classifyMessage (MessageClassifier.create [helloFaq] 0.99) "xyzzy plugh").score = 0.1 ∧
    (classifyMessage (MessageClassifier.create [helloFaq] 0.99) "xyzzy plugh").score ≠
      (BM25Service.search (indexFaqs [helloFaq]) [helloFaq] "xyzzy plugh"
        (MessageClassifier.create [helloFaq] 0.99).similarityThreshold).score := by
  have hb : (MessageClassifier.create [helloFaq] 0.99).bm25Service =
      indexFaqs [helloFaq] := rfl
  have hf : (MessageClassifier.create [helloFaq] 0.99).faqs = [helloFaq] := rfl
  have hcl : classifyMessage (MessageClassifier.create [helloFaq] 0.99) "xyzzy plugh" =
      { type := MessageType.beta, matchedFaq := none,
        score := if 0 < (BM25Service.search (indexFaqs [helloFaq]) [helloFaq] "xyzzy plugh"
            (MessageClassifier.create [helloFaq] 0.99).similarityThreshold).score then
          (BM25Service.search (indexFaqs [helloFaq]) [helloFaq] "xyzzy plugh"
            (MessageClassifier.create [helloFaq] 0.99).similarityThreshold).score
        else 0.1,
        message := "xyzzy plugh" } := by
    unfold classifyMessage
    rw [if_neg (by decide : ¬ ("xyzzy plugh".length < 5))]
    dsimp only
    rw [hb, hf, if_neg (fun hh => xyzzy_not_direct hh.1)]
  have hsc : (classifyMessage (MessageClassifier.create [helloFaq] 0.99) "xyzzy plugh").score =
      (0.1 : ℝ) := by
    rw [hcl]
    dsimp only
    rw [xyzzy_search_score, if_neg (by norm_num : ¬ (0 : ℝ) < 0)]
  refine ⟨by rw [hcl], xyzzy_search_score, hsc, ?_⟩
  rw [hsc, xyzzy_search_score]
  norm_num

/-- Witness for C9 at the same concrete non-matching message. -/
theorem spec_C9_witness :
    5 ≤ ("xyzzy plugh" : String).length ∧
    ((classifyMessage (MessageClassifier.create [helloFaq] 0.99) "xyzzy plugh").type =
        MessageType.beta ∧
      (classifyMessage (MessageClassifier.create [helloFaq] 0.99) "xyzzy plugh").score =
        (if 0 < (BM25Service.search (indexFaqs [helloFaq]) [helloFaq] "xyzzy plugh"
            (MessageClassifier.create [helloFaq] 0.99).similarityThreshold).score then
          (BM25Service.search (indexFaqs [helloFaq]) [helloFaq] "xyzzy plugh"
            (MessageClassifier.create [helloFaq] 0.99).similarityThreshold).score
         else 0.1)) :=
  ⟨by decide, spec_C9 [helloFaq] 0.99 "xyzzy plugh" (by decide) xyzzy_not_direct⟩

/-- Witness for C2: a 2-character message is Unrelated, and a long message
with no direct match is Beta. -/
theorem spec_C2_witness :
    (classifyMessage (MessageClassifier.create [helloFaq] 0.99) "hi").type =
      MessageType.unrelated ∧
    (classifyMessage (MessageClassifier.create [helloFaq] 0.99) "xyzzy plugh").type =
      MessageType.beta :=
  ⟨(spec_C2 [helloFaq] 0.99 "hi").1.mpr (by decide),
   ((spec_C2 [helloFaq] 0.99 "xyzzy plugh").2 (by decide)).2 xyzzy_not_direct⟩

theorem channel_avg : (indexFaqs [channelFaq]).avgDocLength = 3 := by
  have h : (indexFaqs [channelFaq]).avgDocLength =
      ((indexFaqs [channelFaq]).docLengths.sum : ℚ) /
        ((indexFaqs [channelFaq]).docLengths.length : ℚ) := rfl
  rw [h, show (indexFaqs [channelFaq]).docLengths = [3] from by decide]
  norm_num

theorem channel_token_step (t : String)
    (hlk : (indexFaqs [channelFaq]).terms.lookup t = some [1]) (s : ℝ) :
    BM25Service.scoreStep (indexFaqs [channelFaq]) 0 (some s) t =
      some (s + Real.log (4 / 3)) := by
  have hidf : BM25Service.getIdf (indexFaqs [channelFaq]) t = Real.log (4 / 3) := by
    unfold BM25Service.getIdf
    rw [hlk]
    dsimp only
    rw [show (([1] : List Nat).filter (fun f => 0 < f)).length = 1 from by decide,
      show (indexFaqs [channelFaq]).documents.length = 1 from by decide]
    norm_num
  unfold BM25Service.scoreStep
  rw [hlk]
  dsimp only
  rw [show (([1] : List Nat))[0]? = some 1 from rfl]
  rw [hidf, show (indexFaqs [channelFaq]).docLengths.getD 0 0 = 3 from by decide,
    channel_avg]
  unfold BM25Service.k1 BM25Service.b
  norm_num

theorem channel_scoreDoc :
    BM25Service.scoreDoc (indexFaqs [channelFaq])
      (tokenize "How do I create a channel?") 0 = some (3 * Real.log (4 / 3)) := by
  rw [show tokenize "How do I create a channel?" = ["how", "create", "channel"] from by decide]
  unfold BM25Service.scoreDoc
  rw [List.foldl_cons, channel_token_step "how" (by decide) 0,
    List.foldl_cons, channel_token_step "create" (by decide) _,
    List.foldl_cons, channel_token_step "channel" (by decide) _,
    List.foldl_nil]
  congr 1
  ring

theorem channel_scores :
    BM25Service.calculateScores (indexFaqs [channelFaq])
      (tokenize "How do I create a channel?") = [some (3 * Real.log (4 / 3))] := by
  unfold BM25Service.calculateScores
  rw [show (indexFaqs [channelFaq]).documents.length = 1 from by decide,
    show List.range 1 = [0] from rfl, List.map_cons, List.map_nil, channel_scoreDoc]

theorem channel_log_pos : (0 : ℝ) < 3 * Real.log (4 / 3) := by
  have := Real.log_pos (by norm_num : (1 : ℝ) < 4 / 3)
  linarith

theorem channel_best :
    BM25Service.bestScore [some (3 * Real.log (4 / 3))] = (3 * Real.log (4 / 3), 0) := by
  unfold BM25Service.bestScore
  have h1 : BM25Service.bestGo [some (3 * Real.log (4 / 3))] 0 (-1, -1) =
      BM25Service.bestGo [] 1
        (if ((-1 : ℝ), (-1 : ℤ)).1 < 3 * Real.log (4 / 3) then
          (3 * Real.log (4 / 3), ((0 : ℕ) : ℤ))
         else ((-1 : ℝ), (-1 : ℤ))) := rfl
  rw [h1, if_pos (show ((-1 : ℝ), (-1 : ℤ)).1 < 3 * Real.log (4 / 3) by
    have := channel_log_pos
    dsimp only
    linarith)]
  rfl

theorem channel_log_lt : 3 * Real.log (4 / 3) < 0.99 := by
  have hsq : Real.log (4 / 3 : ℝ) = 2 * Real.log (Real.sqrt (4 / 3)) := by
    rw [Real.log_sqrt (by norm_num : (0 : ℝ) ≤ 4 / 3)]
    ring
  have hpos : (0 : ℝ) < Real.sqrt (4 / 3) := Real.sqrt_pos.mpr (by norm_num)
  have hb1 := Real.log_le_sub_one_of_pos hpos
  have hsqrt : Real.sqrt (4 / 3 : ℝ) < 1.165 :=
    (Real.sqrt_lt' (show (0 : ℝ) < 1.165 by norm_num)).mpr
      (show (4 / 3 : ℝ) < 1.165 ^ 2 by norm_num)
  calc 3 * Real.log (4 / 3 : ℝ) = 6 * Real.log (Real.sqrt (4 / 3)) := by rw [hsq]; ring
    _ ≤ 6 * (Real.sqrt (4 / 3) - 1) := by linarith
    _ < 0.99 := by linarith

theorem channel_search_score :
    (BM25Service.search (indexFaqs [channelFaq]) [channelFaq] "How do I create a channel?"
      (MessageClassifier.create [channelFaq] 0.99).similarityThreshold).score =
      3 * Real.log (4 / 3) := by
  show (BM25Service.bestScore (BM25Service.calculateScores (indexFaqs [channelFaq])
    (tokenize "How do I create a channel?"))).1 = 3 * Real.log (4 / 3)
  rw [channel_scores, channel_best]

theorem channel_not_direct :
    ¬ (BM25Service.search (indexFaqs [channelFaq]) [channelFaq] "How do I create a channel?"
      (MessageClassifier.create [channelFaq] 0.99).similarityThreshold).isDirectMatch := by
  intro hle
  have h : (MessageClassifier.create [channelFaq] 0.99).similarityThreshold ≤
      (BM25Service.bestScore (BM25Service.calculateScores (indexFaqs [channelFaq])
        (tokenize "How do I create a channel?"))).1 := hle
  rw [channel_scores, channel_best, create_threshold_eq] at h
  dsimp only at h
  linarith [channel_log_lt]

theorem channel_classify :
    classifyMessage (MessageClassifier.create [channelFaq] 0.99) "How do I create a channel?" =
      { type := MessageType.beta, matchedFaq := none,
        score := if 0 < (BM25Service.search (indexFaqs [channelFaq]) [channelFaq]
            "How do I create a channel?"
            (MessageClassifier.create [channelFaq] 0.99).similarityThreshold).score then
          (BM25Service.search (indexFaqs [channelFaq]) [channelFaq]
            "How do I create a channel?"
            (MessageClassifier.create [channelFaq] 0.99).similarityThreshold).score
        else 0.1,
        message := "How do I create a channel?" } := by
  have hb : (MessageClassifier.create [channelFaq] 0.99).bm25Service =
      indexFaqs [channelFaq] := rfl
  have hf : (MessageClassifier.create [channelFaq] 0.99).faqs = [channelFaq] := rfl
  unfold classifyMessage
  rw [if_neg (by decide : ¬ ("How do I create a channel?".length < 5))]
  dsimp only
  rw [hb, hf, if_neg (fun hh => channel_not_direct hh.1)]

/-- Counterexample for C8 as stated: the exact corpus question scores
3·ln(4/3) ≈ 0.863 < 0.99 under BM25, so the scenario's classification is
not Alpha. -/
theorem spec_C8_counterexample :
    (classifyMessage (MessageClassifier.create [channelFaq] 0.99)
      "How do I create a channel?").type ≠ MessageType.alpha := by
  rw [channel_classify]
  intro h
  exact MessageType.noConfusion h

/-- C8 (amended): on the one-entry corpus with threshold 0.99, classifying
the exact corpus question yields Beta with score 3·ln(4/3), which is below
0.99 — BM25 scores are not normalised similarities, so the exact question
does not reach the 0.99 bar. -/
theorem spec_C8 :
    (classifyMessage (MessageClassifier.create [channelFaq] 0.99)
      "How do I create a channel?").type = MessageType.beta ∧
    (classifyMessage (MessageClassifier.create [channelFaq] 0.99)
      "How do I create a channel?").score = 3 * Real.log (4 / 3) ∧
    3 * Real.log (4 / 3) < 0.99 := by
  refine ⟨by rw [channel_classify], ?_, channel_log_lt⟩
  rw [channel_classify]
  dsimp only
  rw [channel_search_score, if_pos channel_log_pos]

/-- C4: the claim is right and the code is wrong. `indexFaqs` pads a
term-frequency array only up to the last document containing the term, so
`calculateScores` reads `undefined` (NaN, modelled `none`) for every later
document instead of the formula value: on the corpus
`["hello", "world"]` with query `"hello"`, the second entry's score is NaN
where the BM25 formula gives 0 (the term contributes `tf = 0`). -/
theorem spec_C4 :
    (indexFaqs [helloFaq, worldFaq]).documents.length = 2 ∧
    (indexFaqs [helloFaq, worldFaq]).terms.lookup "hello" = some [1] ∧
    (BM25Service.calculateScores (indexFaqs [helloFaq, worldFaq]) (tokenize "hello"))[1]? =
      some none :=
  ⟨by decide, by decide, rfl⟩

theorem filterMap_all_some {α β : Type} (f : α → Option β) :
    ∀ (l : List α), (∀ x ∈ l, (f x).isSome) → (l.filterMap f).length = l.length := by
  intro l
  induction l with
  | nil => intro _; rfl
  | cons x xs ih =>
    intro h
    rw [List.filterMap_cons]
    cases hfx : f x with
    | none =>
      have := h x (List.mem_cons_self x xs)
      rw [hfx] at this
      simp at this
    | some b =>
      rw [List.length_cons, ih (fun y hy => h y (List.mem_cons_of_mem _ hy))]
      rfl

theorem selectNext_multi (resolve : String → Option IUser) (n1 n2 : String)
    (rest : List String) (c : Option ℤ)
    (hne0 : ¬ ((n1 :: n2 :: rest).filterMap resolve).length = 0) :
    selectNextReviewer resolve c (n1 :: n2 :: rest) =
      (((n1 :: n2 :: rest).filterMap resolve)[(((if c.getD (-1) < -1 ∨
            ((((n1 :: n2 :: rest).filterMap resolve).length : ℤ) ≤ c.getD (-1)) then (-1 : ℤ)
          else c.getD (-1)) + 1) % (((n1 :: n2 :: rest).filterMap resolve).length : ℤ)).toNat]?,
       some ((((if c.getD (-1) < -1 ∨
            ((((n1 :: n2 :: rest).filterMap resolve).length : ℤ) ≤ c.getD (-1)) then (-1 : ℤ)
          else c.getD (-1)) + 1) % (((n1 :: n2 :: rest).filterMap resolve).length : ℤ)))) := by
  unfold selectNextReviewer
  dsimp only
  rw [if_neg hne0]

theorem selectRun_valid (resolve : String → Option IUser) (n1 n2 : String) (rest : List String) :
    ∀ (k j : ℕ), j < ((n1 :: n2 :: rest).filterMap resolve).length →
      selectRun resolve (n1 :: n2 :: rest) k (some (j : ℤ)) =
        (List.range k).map
          (fun m => ((n1 :: n2 :: rest).filterMap resolve)[(j + 1 + m) %
            ((n1 :: n2 :: rest).filterMap resolve).length]?) := by
  intro k
  induction k with
  | zero => intro j hj; rfl
  | succ k ih =>
    intro j hj
    have hN0 : ¬ ((n1 :: n2 :: rest).filterMap resolve).length = 0 := by omega
    have hstep := selectNext_multi resolve n1 n2 rest (some (j : ℤ)) hN0
    simp only [Option.getD_some] at hstep
    rw [if_neg (show ¬ ((j : ℤ) < -1 ∨
      ((((n1 :: n2 :: rest).filterMap resolve).length : ℤ) ≤ (j : ℤ))) by omega)] at hstep
    rw [show ((j : ℤ) + 1) % ((((n1 :: n2 :: rest).filterMap resolve).length : ℕ) : ℤ) =
        (((j + 1) % ((n1 :: n2 :: rest).filterMap resolve).length : ℕ) : ℤ) by
      push_cast
      rfl] at hstep
    rw [Int.toNat_natCast] at hstep
    have hrun : selectRun resolve (n1 :: n2 :: rest) (k + 1) (some (j : ℤ)) =
        (selectNextReviewer resolve (some (j : ℤ)) (n1 :: n2 :: rest)).1 ::
          selectRun resolve (n1 :: n2 :: rest) k
            (selectNextReviewer resolve (some (j : ℤ)) (n1 :: n2 :: rest)).2 := rfl
    rw [hrun, hstep]
    dsimp only
    rw [ih ((j + 1) % ((n1 :: n2 :: rest).filterMap resolve).length)
      (Nat.mod_lt _ (by omega))]
    rw [List.range_succ_eq_map, List.map_cons, List.map_map]
    congr 1
    apply List.map_congr_left
    intro m hm
    show ((n1 :: n2 :: rest).filterMap resolve)[((j + 1) %
        ((n1 :: n2 :: rest).filterMap resolve).length + 1 + m) %
        ((n1 :: n2 :: rest).filterMap resolve).length]? =
      ((n1 :: n2 :: rest).filterMap resolve)[(j + 1 + Nat.succ m) %
        ((n1 :: n2 :: rest).filterMap resolve).length]?
    congr 1
    rw [Nat.add_assoc, Nat.mod_add_mod]
    congr 1
    omega

theorem rotate_run_eq (avail : List IUser) (j0 : ℕ) (hj0 : j0 < avail.length)
    (h2 : 2 ≤ avail.length) :
    (avail.rotate j0).map some =
      avail[j0]? :: (List.range (avail.length - 1)).map
        (fun m => avail[(j0 + 1 + m) % avail.length]?) := by
  apply List.ext_getElem?
  intro i
  rw [List.getElem?_map]
  cases i with
  | zero =>
    rw [List.getElem?_rotate (show 0 < avail.length by omega)]
    rw [Nat.zero_add, Nat.mod_eq_of_lt hj0]
    rw [List.getElem?_cons_zero]
    rw [List.getElem?_eq_getElem hj0]
    rfl
  | succ i =>
    rw [List.getElem?_cons_succ, List.getElem?_map]
    by_cases hi : i < avail.length - 1
    · rw [List.getElem?_range hi,
        List.getElem?_rotate (show i + 1 < avail.length by omega),
        show (i + 1 + j0) % avail.length = (j0 + 1 + i) % avail.length by congr 1; omega]
      simp only [Option.map_some']
      rw [List.getElem?_eq_getElem
        (show (j0 + 1 + i) % avail.length < avail.length from Nat.mod_lt _ (by omega))]
      rfl
    · rw [List.getElem?_eq_none
        (show (List.range (avail.length - 1)).length ≤ i by rw [List.length_range]; omega)]
      rw [List.getElem?_eq_none
        (show (avail.rotate j0).length ≤ i + 1 by rw [List.length_rotate]; omega)]
      rfl

/-- C3: a one-entry reviewer list is answered directly with the cursor left
untouched; for a longer list (all names resolving) a missing, negative or
out-of-range persisted cursor is treated as -1, the next index is
`(cursor + 1) mod N`, it is persisted and the reviewer at that index is
returned; `N` consecutive selections return the resolved reviewer list
rotated to start after the cursor — each reviewer exactly once, in list
order. -/
theorem spec_C3 (resolve : String → Option IUser) (names : List String) (c : Option ℤ)
    (hres : ∀ n ∈ names, (resolve n).isSome) :
    (∀ u, names = [u] → selectNextReviewer resolve c names = (resolve u, c)) ∧
    (∀ next : ℤ,
      1 < names.length →
      next = ((if c.getD (-1) < -1 ∨ (((names.filterMap resolve).length : ℤ) ≤ c.getD (-1))
          then (-1 : ℤ) else c.getD (-1)) + 1) % ((names.filterMap resolve).length : ℤ) →
      (0 ≤ next ∧ next < ((names.filterMap resolve).length : ℤ)) ∧
      selectNextReviewer resolve c names = ((names.filterMap resolve)[next.toNat]?, some next) ∧
      ((names.filterMap resolve)[next.toNat]?).isSome ∧
      selectRun resolve names names.length c =
        ((names.filterMap resolve).rotate next.toNat).map some ∧
      (selectRun resolve names names.length c).Perm ((names.filterMap resolve).map some)) := by
  refine ⟨?_, ?_⟩
  · intro u hu
    subst hu
    rfl
  · intro next hlen hnext
    match names, hlen with
    | n1 :: n2 :: rest, _ =>
    have hres2 : ∀ n ∈ (n1 :: n2 :: rest), (resolve n).isSome := hres
    have hNlen : ((n1 :: n2 :: rest).filterMap resolve).length = (n1 :: n2 :: rest).length :=
      filterMap_all_some resolve _ hres2
    have hN2 : 2 ≤ ((n1 :: n2 :: rest).filterMap resolve).length := by
      rw [hNlen]
      simp only [List.length_cons]
      omega
    have h0 : ¬ ((n1 :: n2 :: rest).filterMap resolve).length = 0 := by omega
    have hnext_bounds : 0 ≤ next ∧ next < (((n1 :: n2 :: rest).filterMap resolve).length : ℤ) := by
      rw [hnext]
      constructor
      · exact Int.emod_nonneg _ (by exact_mod_cast h0)
      · exact Int.emod_lt_of_pos _ (by exact_mod_cast Nat.pos_of_ne_zero h0)
    have hstep := selectNext_multi resolve n1 n2 rest c h0
    rw [← hnext] at hstep
    have hj0lt : next.toNat < ((n1 :: n2 :: rest).filterMap resolve).length := by omega
    have hnext_cast : next = ((next.toNat : ℕ) : ℤ) := by omega
    have hrot : selectRun resolve (n1 :: n2 :: rest) (n1 :: n2 :: rest).length c =
        (((n1 :: n2 :: rest).filterMap resolve).rotate next.toNat).map some := by
      rw [show (n1 :: n2 :: rest).length =
        (((n1 :: n2 :: rest).filterMap resolve).length - 1) + 1 by omega]
      have hrun1 : selectRun resolve (n1 :: n2 :: rest)
          ((((n1 :: n2 :: rest).filterMap resolve).length - 1) + 1) c =
          (selectNextReviewer resolve c (n1 :: n2 :: rest)).1 ::
            selectRun resolve (n1 :: n2 :: rest)
              (((n1 :: n2 :: rest).filterMap resolve).length - 1)
              (selectNextReviewer resolve c (n1 :: n2 :: rest)).2 := rfl
      rw [hrun1, hstep]
      dsimp only
      rw [hnext_cast]
      rw [Int.toNat_natCast]
      rw [selectRun_valid resolve n1 n2 rest
        (((n1 :: n2 :: rest).filterMap resolve).length - 1) next.toNat hj0lt]
      exact (rotate_run_eq ((n1 :: n2 :: rest).filterMap resolve) next.toNat hj0lt hN2).symm
    refine ⟨hnext_bounds, hstep, ?_, hrot, ?_⟩
    · rw [List.getElem?_eq_getElem hj0lt]
      rfl
    · rw [hrot]
      exact (List.rotate_perm _ _).map some

/-- Witness for C3: three resolvable reviewers with an out-of-range
persisted cursor 7, and a single-reviewer list with the cursor untouched. -/
theorem spec_C3_witness :
    selectNextReviewer (fun n => some (IUser.mk n)) (some 5) ["solo"] =
      ((fun n => some (IUser.mk n)) "solo", some 5) ∧
    (((0 : ℤ) ≤ 0 ∧ (0 : ℤ) <
      (((["a", "b", "c"] : List String).filterMap (fun n => some (IUser.mk n))).length : ℤ)) ∧
    selectNextReviewer (fun n => some (IUser.mk n)) (some 7) ["a", "b", "c"] =
      (((["a", "b", "c"] : List String).filterMap (fun n => some (IUser.mk n)))[(0 : ℤ).toNat]?,
        some 0) ∧
    ((((["a", "b", "c"] : List String).filterMap
        (fun n => some (IUser.mk n)))[(0 : ℤ).toNat]?).isSome) ∧
    selectRun (fun n => some (IUser.mk n)) ["a", "b", "c"]
        (["a", "b", "c"] : List String).length (some 7) =
      ((((["a", "b", "c"] : List String).filterMap (fun n => some (IUser.mk n))).rotate
        (0 : ℤ).toNat)).map some ∧
    (selectRun (fun n => some (IUser.mk n)) ["a", "b", "c"]
        (["a", "b", "c"] : List String).length (some 7)).Perm
      ((((["a", "b", "c"] : List String).filterMap (fun n => some (IUser.mk n)))).map some)) :=
  ⟨(spec_C3 (fun n => some (IUser.mk n)) ["solo"] (some 5) (by decide)).1 "solo" rfl,
   (spec_C3 (fun n => some (IUser.mk n)) ["a", "b", "c"] (some 7) (by decide)).2 0
     (by decide) (by decide)⟩

end FaqDetection
